import Mathlib

/-!
# Verification of the MPSSE protocol engine (`mpsse_protocol.cpp` / `mpsse_protocol.h`)

Shallow embedding of the FTDI MPSSE protocol layer:

* `FtdiDevice`'s pending command buffer (`BufferClear` / `BufferByte` /
  `BufferBytes` / `BufferFlush`) and its `Read` wrapper, with the USB
  transport modelled as an oracle (`Env`) indexed by the write/read call
  counts kept in the device state;
* `FtdiDevice::MpsseSync`'s echo-scanning loop;
* `FtdiDevice::MpsseSetClockFreq`'s divisor computation (float arithmetic
  idealized as exact rational arithmetic);
* the `MpsseI2c` operations `Start`, `Restart`, `Stop`, `WriteByte`,
  `ReadBytes` and `Transaction`, together with a small interpreter that
  recovers the SCL/SDA pin state from the issued MPSSE command bytes.

Machine integers are modelled as `Nat`/`Int` with explicit truncation where
the C++ code truncates.
-/

namespace Mpsse

/-! ## MPSSE command constants (from `ftdi.h`) -/

def SET_BITS_LOW : Nat := 0x80
def TCK_DIVISOR : Nat := 0x86
def SEND_IMMEDIATE : Nat := 0x87
def DIS_DIV_5 : Nat := 0x8a
def EN_3_PHASE : Nat := 0x8c
def DIS_3_PHASE : Nat := 0x8d
def EN_ADAPTIVE : Nat := 0x96
def DIS_ADAPTIVE : Nat := 0x97
def MPSSE_WRITE_NEG : Nat := 0x01
def MPSSE_BITMODE : Nat := 0x02
def MPSSE_LSB : Nat := 0x08
def MPSSE_DO_WRITE : Nat := 0x10
def MPSSE_DO_READ : Nat := 0x20

/-- `#define MPSSE_IDLE_LOW_WRITE (MPSSE_DO_WRITE | MPSSE_WRITE_NEG)` -/
def MPSSE_IDLE_LOW_WRITE : Nat := MPSSE_DO_WRITE ||| MPSSE_WRITE_NEG

/-- `#define MPSSE_IDLE_LOW_READ (MPSSE_DO_READ)` -/
def MPSSE_IDLE_LOW_READ : Nat := MPSSE_DO_READ

/-! ## Transport oracle and device state

The USB transport (`ftdi_write_data` / the byte deliveries observed by
`FtdiDevice::Read`) is modelled by an oracle indexed by how many wire writes
resp. reads the device has performed so far.  `writeAccept n payload` is the
value `ftdi_write_data` returns for the `n`-th wire write of `payload`;
`readData n len` is `some bs` when the `n`-th `Read` call asking for `len`
bytes collects `bs` before its deadline, and `none` when the underlying read
errors out or times out. -/

/-- Observable I/O events of a device: a wire write of a payload (one
`ftdi_write_data` call issued by `BufferFlush`), or a `Read` call for `len`
bytes. -/
inductive Ev
  | wr (payload : List Nat)
  | rd (len : Nat)
  deriving Repr, DecidableEq

structure Env where
  writeAccept : Nat → List Nat → Int
  readData : Nat → Nat → Option (List Nat)

/-- State of an `FtdiDevice`: the pending command buffer (`buffer_` together
with `buffer_len_`), the number of wire writes and `Read` calls performed so
far (indices into the oracle), and the trace of I/O events. -/
structure DevState where
  buffer : List Nat
  writes : Nat
  reads : Nat
  trace : List Ev
  deriving Repr, DecidableEq

def initSt : DevState := ⟨[], 0, 0, []⟩

/-- `static constexpr int kBufferSize = 512;` -/
def kBufferSize : Nat := 512

/-- `void FtdiDevice::BufferClear() { buffer_len_ = 0; }` -/
def bufferClear (st : DevState) : DevState := { st with buffer := [] }

/-- `FtdiDevice::BufferByte`: append one byte unless `buffer_len_ >= kBufferSize`. -/
def bufferByte (b : Nat) (st : DevState) : Int × DevState :=
  if st.buffer.length ≥ kBufferSize then (-1, st)
  else (0, { st with buffer := st.buffer ++ [b] })

/-- `FtdiDevice::BufferBytes`: append a byte sequence unless
`buffer_len_ + data.size() > kBufferSize`; nothing is written when the bound
check fails. -/
def bufferBytes (data : List Nat) (st : DevState) : Int × DevState :=
  if st.buffer.length + data.length > kBufferSize then (-1, st)
  else (0, { st with buffer := st.buffer ++ data })

/-- `FtdiDevice::BufferFlush`: trivial success on an empty buffer; otherwise
one `ftdi_write_data` of the whole pending buffer, failing (and keeping the
buffer) when the accepted count differs from the pending length, clearing the
buffer on success. -/
def bufferFlush (env : Env) (st : DevState) : Int × DevState :=
  if st.buffer.length = 0 then (0, st)
  else
    let ret := env.writeAccept st.writes st.buffer
    let st' : DevState :=
      { st with writes := st.writes + 1, trace := st.trace ++ [Ev.wr st.buffer] }
    if ret ≠ (st.buffer.length : Int) then (-1, st')
    else (0, { st' with buffer := [] })

/-- `FtdiDevice::Read`: poll until `len` bytes are collected or the 1 ms
deadline elapses.  The oracle yields either the `len` collected bytes or a
failure; a delivery of the wrong length is the timeout/desync failure path. -/
def devRead (env : Env) (len : Nat) (st : DevState) : Int × List Nat × DevState :=
  let st' : DevState := { st with reads := st.reads + 1, trace := st.trace ++ [Ev.rd len] }
  match env.readData st.reads len with
  | none => (-1, [], st')
  | some bs => if bs.length = len then (0, bs, st') else (-1, [], st')

/-- An environment whose wire writes always accept the full payload. -/
def GoodWrites (env : Env) : Prop :=
  ∀ n p, env.writeAccept n p = (p.length : Int)

/-! ## Theorems for C4 and C5 -/

/-- **C4.** `BufferByte` / `BufferBytes` fail exactly when the append would
push the pending length past 512 bytes; on failure the state (hence the
buffer's content and length) is untouched, on success the bytes are appended
in order, growing the length accordingly. -/
theorem bufferBytes_all_or_nothing (st : DevState) (b : Nat) (data : List Nat) :
    bufferByte b st =
      (if st.buffer.length + 1 > kBufferSize then (-1, st)
       else (0, { st with buffer := st.buffer ++ [b] })) ∧
    bufferBytes data st =
      (if st.buffer.length + data.length > kBufferSize then (-1, st)
       else (0, { st with buffer := st.buffer ++ data })) := by
  constructor
  · unfold bufferByte
    rcases Nat.lt_or_ge st.buffer.length kBufferSize with h | h
    · rw [if_neg (by omega), if_neg (by omega)]
    · rw [if_pos (by omega), if_pos (by omega)]
  · rfl

/-- **C5.** `BufferFlush` on an empty pending buffer succeeds with no I/O;
otherwise it performs exactly one wire write of the exact pending payload,
failing (with the pending bytes retained) when the transport accepts a
different count than requested, and clearing the pending buffer exactly when
the full length was accepted. -/
theorem bufferFlush_spec (env : Env) (st : DevState) :
    (st.buffer = [] → bufferFlush env st = (0, st)) ∧
    (st.buffer ≠ [] →
      (bufferFlush env st).2.trace = st.trace ++ [Ev.wr st.buffer] ∧
      (bufferFlush env st).2.writes = st.writes + 1 ∧
      (env.writeAccept st.writes st.buffer = (st.buffer.length : Int) →
        (bufferFlush env st).1 = 0 ∧ (bufferFlush env st).2.buffer = []) ∧
      (env.writeAccept st.writes st.buffer ≠ (st.buffer.length : Int) →
        (bufferFlush env st).1 = -1 ∧ (bufferFlush env st).2.buffer = st.buffer)) := by
  constructor
  · intro h
    simp [bufferFlush, h]
  · intro h
    have hlen : st.buffer.length ≠ 0 := by simpa using h
    by_cases hacc : env.writeAccept st.writes st.buffer = (st.buffer.length : Int)
    · simp [bufferFlush, hlen, hacc]
    · simp [bufferFlush, hlen, hacc]

/-- Witness for `bufferFlush_spec` at a concrete environment and state. -/
theorem bufferFlush_spec_witness :
    ([3, 4] : List Nat) ≠ [] ∧
    (bufferFlush ⟨fun _ p => (p.length : Int), fun _ _ => none⟩
        ⟨[3, 4], 0, 0, []⟩).1 = 0 := by
  refine ⟨by decide, ?_⟩
  exact ((bufferFlush_spec ⟨fun _ p => (p.length : Int), fun _ _ => none⟩
    ⟨[3, 4], 0, 0, []⟩).2 (by decide)).2.2.1 rfl |>.1

/-! ## `FtdiDevice::MpsseSetClockFreq` (C6)

The C++ code computes the divisor in `float` arithmetic; the embedding
idealizes that as exact rational arithmetic (the formulas are identical). -/

/-- The divisor / achieved-frequency / relative-error computation of
`MpsseSetClockFreq`, line by line from the source. -/
structure ClockCalc where
  div : Int
  actualKhz : ℚ
  error : ℚ
  deriving Repr, DecidableEq

def clockCalc (khz : ℚ) (threePhase : Bool) : ClockCalc :=
  let divisor : ℚ := 60000 / (if threePhase then khz * 1.5 else khz) / 2 - 1
  let div0 : Int := round divisor
  let div : Int := if div0 < 0 then 0 else if div0 > 0xffff then 0xffff else div0
  let actual0 : ℚ := 60000 / (((div : ℚ) + 1) * 2)
  let actual : ℚ := if threePhase then actual0 / 3 * 2 else actual0
  ⟨div, actual, |actual - khz| / khz⟩

/-- `FtdiDevice::MpsseSetClockFreq`: reject `khz <= 0`; otherwise clear the
buffer, append the three mode bytes and the `TCK_DIVISOR` command (divisor
low byte then high byte) and flush, or-ing all the result codes together. -/
def mpsseSetClockFreq (env : Env) (khz : ℚ) (threePhase adaptive : Bool)
    (st : DevState) : Int × DevState :=
  if khz ≤ 0 then (-1, st)
  else
    let c := clockCalc khz threePhase
    let (r1, s1) := bufferByte (if threePhase then EN_3_PHASE else DIS_3_PHASE) (bufferClear st)
    let (r2, s2) := bufferByte (if adaptive then EN_ADAPTIVE else DIS_ADAPTIVE) s1
    let (r3, s3) := bufferByte DIS_DIV_5 s2
    let (r4, s4) := bufferBytes [TCK_DIVISOR, c.div.toNat &&& 0xff, (c.div.toNat >>> 8) &&& 0xff] s3
    let (r5, s5) := bufferFlush env s4
    (if r1 = 0 ∧ r2 = 0 ∧ r3 = 0 ∧ r4 = 0 ∧ r5 = 0 then 0 else -1, s5)

/-- The divisor exactly as the claim words it: `round(60000 / (threePhase ?
khz·1.5 : khz) / 2 − 1)` clamped to `[0, 65535]`. -/
def divisorSpec (khz : ℚ) (threePhase : Bool) : Int :=
  max 0 (min 65535 (round (60000 / (if threePhase then khz * (3 / 2) else khz) / 2 - 1)))

/-- The achieved frequency as the claim words it: `60000 / ((divisor+1)·2)`,
adjusted by `2/3` when three-phase. -/
def achievedSpec (khz : ℚ) (threePhase : Bool) : ℚ :=
  60000 / (((divisorSpec khz threePhase : ℚ) + 1) * 2) * (if threePhase then 2 / 3 else 1)

/-- **C6.** For `khz ≤ 0`, `MpsseSetClockFreq` rejects the argument without
touching the device.  For `khz > 0` the computed divisor, achieved frequency
and relative error match the claim's formulas, the divisor stays in
`[0, 65535]`, and the device sees exactly one flush carrying the three mode
command bytes followed by the `TCK_DIVISOR` command with the divisor's low
byte then high byte. -/
theorem mpsseSetClockFreq_spec (env : Env) (khz : ℚ) (tp ad : Bool) (st : DevState)
    (hW : GoodWrites env) :
    (khz ≤ 0 → mpsseSetClockFreq env khz tp ad st = (-1, st)) ∧
    (0 < khz →
      (clockCalc khz tp).div = divisorSpec khz tp ∧
      0 ≤ divisorSpec khz tp ∧ divisorSpec khz tp ≤ 65535 ∧
      (clockCalc khz tp).actualKhz = achievedSpec khz tp ∧
      (clockCalc khz tp).error = |achievedSpec khz tp - khz| / khz ∧
      (mpsseSetClockFreq env khz tp ad st).1 = 0 ∧
      (mpsseSetClockFreq env khz tp ad st).2.trace =
        st.trace ++ [Ev.wr [(if tp then EN_3_PHASE else DIS_3_PHASE),
                            (if ad then EN_ADAPTIVE else DIS_ADAPTIVE),
                            DIS_DIV_5, TCK_DIVISOR,
                            (divisorSpec khz tp).toNat &&& 0xff,
                            ((divisorSpec khz tp).toNat >>> 8) &&& 0xff]]) := by
  have hW' : ∀ n p, env.writeAccept n p = (p.length : Int) := hW
  have h15 : (1.5 : ℚ) = 3 / 2 := by norm_num
  have hdiv : (clockCalc khz tp).div = divisorSpec khz tp := by
    cases tp
    all_goals
      simp only [clockCalc, divisorSpec, h15, Bool.false_eq_true, if_true, if_false]
      split_ifs <;> omega
  have hrange : 0 ≤ divisorSpec khz tp ∧ divisorSpec khz tp ≤ 65535 := by
    unfold divisorSpec
    constructor
    · exact le_max_left _ _
    · exact max_le (by norm_num) (min_le_left _ _)
  have hact : (clockCalc khz tp).actualKhz = achievedSpec khz tp := by
    unfold achievedSpec
    rw [← hdiv]
    unfold clockCalc
    cases tp
    all_goals
      simp
      try ring
  have herr : (clockCalc khz tp).error = |(clockCalc khz tp).actualKhz - khz| / khz := rfl
  refine ⟨?_, ?_⟩
  · intro hle
    simp [mpsseSetClockFreq, hle]
  · intro hpos
    have hne : ¬(khz ≤ 0) := not_le.mpr hpos
    refine ⟨hdiv, hrange.1, hrange.2, hact, ?_, ?_, ?_⟩
    · rw [herr, hact]
    · simp only [mpsseSetClockFreq, if_neg hne]
      simp [bufferByte, bufferBytes, bufferClear, bufferFlush, kBufferSize, hW']
    · rw [← hdiv]
      simp only [mpsseSetClockFreq, if_neg hne]
      simp [bufferByte, bufferBytes, bufferClear, bufferFlush, kBufferSize, hW']

/-- Witness for `mpsseSetClockFreq_spec`: requesting 400 kHz in three-phase
mode yields divisor 49 and flushes the six expected command bytes. -/
theorem mpsseSetClockFreq_spec_witness :
    (0 : ℚ) < 400 ∧
    (mpsseSetClockFreq ⟨fun _ p => (p.length : Int), fun _ _ => none⟩
      400 true false initSt).2.trace =
      [Ev.wr [EN_3_PHASE, DIS_ADAPTIVE, DIS_DIV_5, TCK_DIVISOR, 49, 0]] := by
  have h := (mpsseSetClockFreq_spec ⟨fun _ p => (p.length : Int), fun _ _ => none⟩
    400 true false initSt (fun _ _ => rfl)).2 (by norm_num)
  have hd : divisorSpec 400 true = 49 := by
    have h49 : (60000 : ℚ) / (400 * (3 / 2)) / 2 - 1 = 49 := by norm_num
    unfold divisorSpec
    rw [if_pos rfl, h49, round_eq]
    norm_num
  refine ⟨by norm_num, ?_⟩
  rw [h.2.2.2.2.2.2, hd]
  decide

/-! ## `FtdiDevice::MpsseSync` (C3)

The sync loop is driven by the wall clock and by what `ftdi_read_data`
happens to deliver on each poll.  Each poll iteration is modelled by the
elapsed time (in µs) observed at the loop head and by the bytes that poll
returns (`none` = a negative `ftdi_read_data` result). -/

structure SyncIter where
  elapsed : Nat
  read : Option (List Nat)
  deriving Repr, DecidableEq

/-- The expected two-pair bad-command echo `0xfa 0xab 0xfa 0xaa` as the
32-bit accumulator value the code compares against. -/
def syncPattern : Nat := 0xfaabfaaa

/-- One `ftdi_read_data` result folded into the 32-bit accumulator: the code
shifts in only the first `min(ret, 4)` bytes of each individual read
(`for (int i = 0; i < std::fmin(ret, 4); i++)`). -/
def syncShift (acc : Nat) (bs : List Nat) : Nat :=
  (bs.take 4).foldl (fun a b => ((a <<< 8) ||| b % 256) % 2 ^ 32) acc

/-- Exit status of the sync polling loop: `broke acc` when a deadline/match
check broke out of the loop with accumulator `acc`, `fail` when a read
errored, `hung` when the modelled iteration list ran out before the loop
exited (physically impossible: the clock eventually passes 10 ms). -/
inductive SyncExit
  | broke (acc : Nat)
  | fail
  | hung
  deriving Repr, DecidableEq

def syncLoop : Nat → List SyncIter → SyncExit
  | _, [] => .hung
  | acc, it :: rest =>
    if it.elapsed > 10000 then .broke acc
    else if it.elapsed > 100 ∧ acc = syncPattern then .broke acc
    else
      match it.read with
      | none => .fail
      | some bs => syncLoop (syncShift acc bs) rest

/-- `FtdiDevice::MpsseSync`: write the two bad commands (`writeOk` models
`ftdi_write_data` accepting both bytes), run the polling loop, and succeed
exactly when the final accumulator equals the echo pattern. -/
def mpsseSync (writeOk : Bool) (iters : List SyncIter) : Option Int :=
  if ¬ writeOk then some (-1)
  else
    match syncLoop 0 iters with
    | .fail => some (-1)
    | .broke acc => some (if acc ≠ syncPattern then -1 else 0)
    | .hung => none

/-- All bytes the device delivered over a run, in arrival order. -/
def syncStream (iters : List SyncIter) : List Nat :=
  (iters.map (fun it => it.read.getD [])).flatten

/-- The 32-bit big-endian word formed by a byte stream (later bytes shift
out earlier ones). -/
def wordOfBytes (bs : List Nat) : Nat :=
  bs.foldl (fun a b => ((a <<< 8) ||| b % 256) % 2 ^ 32) 0

def lastFour (bs : List Nat) : List Nat := bs.drop (bs.length - 4)

/-- A run in which a single early read delivers 5 bytes whose *last four*
are the echo pattern; the later polls (one after the 100 µs settle and well
inside the 10 ms deadline, one past the deadline) deliver nothing more. -/
def syncCex : List SyncIter :=
  [⟨50, some [0x00, 0xfa, 0xab, 0xfa, 0xaa]⟩, ⟨200, some []⟩, ⟨20000, some []⟩]

/-- **C3, counterexample.** The last four bytes of the full received stream
equal the echo pattern, the whole stream is already in by the 50 µs poll, and
the loop re-checks at 200 µs — after the 100 µs settle time and within the
10 ms deadline — yet `MpsseSync` fails: only the first 4 of the 5 bytes of
the single read were examined, so the match is *not* over the last four bytes
of the full stream. -/
theorem mpsseSync_not_lastFour_of_stream :
    mpsseSync true syncCex = some (-1) ∧
    lastFour (syncStream syncCex) = [0xfa, 0xab, 0xfa, 0xaa] ∧
    syncStream (syncCex.take 1) = syncStream syncCex ∧
    (syncCex.map SyncIter.elapsed = [50, 200, 20000] ∧ 100 < 200 ∧ 200 < 10000) := by
  exact ⟨rfl, rfl, rfl, rfl, by norm_num, by norm_num⟩

/-! Amended behaviour: the loop maintains a 32-bit accumulator fed with at
most the first 4 bytes of each individual read, and succeeds iff that
accumulator equals the pattern at loop exit.  When every read delivers at
most 4 bytes (the regime the code relies on), the accumulator does equal the
last-four-bytes word of the full stream. -/

/-- Big-endian value of a byte list (no truncation). -/
def beVal (bs : List Nat) : Nat :=
  bs.foldl (fun a b => a * 256 + b % 256) 0

theorem beVal_cons_general (a : Nat) (bs : List Nat) :
    bs.foldl (fun x b => x * 256 + b % 256) a = a * 256 ^ bs.length + beVal bs := by
  induction bs generalizing a with
  | nil => simp [beVal]
  | cons b rest ih =>
    have hbe : beVal (b :: rest) = (0 * 256 + b % 256) * 256 ^ rest.length + beVal rest := by
      unfold beVal
      rw [List.foldl_cons, ih]
      rfl
    rw [List.foldl_cons, ih, hbe, List.length_cons]
    ring

theorem wordStep_eq (a b : Nat) :
    ((a <<< 8) ||| b % 256) % 2 ^ 32 = (a * 256 + b % 256) % 2 ^ 32 := by
  have hb : b % 256 < 2 ^ 8 := Nat.mod_lt _ (by norm_num)
  rw [Nat.shiftLeft_eq, Nat.mul_comm a (2 ^ 8), ← Nat.mul_add_lt_is_or hb]

theorem wordFold_eq (bs : List Nat) :
    ∀ a, a < 2 ^ 32 → bs.foldl (fun x b => ((x <<< 8) ||| b % 256) % 2 ^ 32) a =
      (a * 256 ^ bs.length + beVal bs) % 2 ^ 32 := by
  induction bs with
  | nil =>
    intro a ha
    simp only [List.foldl_nil, List.length_nil, pow_zero, Nat.mul_one, beVal, Nat.add_zero]
    omega
  | cons b rest ih =>
    intro a _
    have hstep : ((a <<< 8) ||| b % 256) % 2 ^ 32 = (a * 256 + b % 256) % 2 ^ 32 :=
      wordStep_eq a b
    have hlt : (a * 256 + b % 256) % 2 ^ 32 < 2 ^ 32 := Nat.mod_lt _ (by norm_num)
    rw [List.foldl_cons, hstep, ih _ hlt]
    have hcongr : ((a * 256 + b % 256) % 2 ^ 32) * 256 ^ rest.length + beVal rest ≡
        (a * 256 + b % 256) * 256 ^ rest.length + beVal rest [MOD 2 ^ 32] :=
      ((Nat.mod_modEq _ _).mul_right _).add_right _
    rw [hcongr]
    have hbe : beVal (b :: rest) = (b % 256) * 256 ^ rest.length + beVal rest := by
      have := beVal_cons_general (0 * 256 + b % 256) rest
      simpa [beVal] using this
    rw [List.length_cons, hbe]
    ring_nf

theorem wordFold_lt (bs : List Nat) :
    ∀ a, a < 2 ^ 32 → bs.foldl (fun x b => ((x <<< 8) ||| b % 256) % 2 ^ 32) a < 2 ^ 32 := by
  induction bs with
  | nil => intro a ha; simpa using ha
  | cons b rest ih =>
    intro a _
    exact ih _ (Nat.mod_lt _ (by norm_num))

/-- The 32-bit sliding accumulator over a whole stream depends only on the
stream's last four bytes. -/
theorem wordOfBytes_eq_lastFour (bs : List Nat) :
    wordOfBytes bs = wordOfBytes (lastFour bs) := by
  rcases le_or_lt bs.length 4 with h | h
  · unfold lastFour
    rw [Nat.sub_eq_zero_of_le h, List.drop_zero]
  · have hsplit : bs = bs.take (bs.length - 4) ++ bs.drop (bs.length - 4) :=
      (List.take_append_drop _ bs).symm
    have hdlen : (bs.drop (bs.length - 4)).length = 4 := by
      rw [List.length_drop]
      omega
    unfold wordOfBytes lastFour
    conv_lhs => rw [hsplit]
    rw [List.foldl_append]
    have hA : List.foldl (fun a b => ((a <<< 8) ||| b % 256) % 2 ^ 32) 0
        (bs.take (bs.length - 4)) < 2 ^ 32 :=
      wordFold_lt _ 0 (by norm_num)
    have hR : List.foldl (fun a b => ((a <<< 8) ||| b % 256) % 2 ^ 32) 0
        (bs.drop (bs.length - 4)) =
        (0 * 256 ^ (bs.drop (bs.length - 4)).length + beVal (bs.drop (bs.length - 4))) % 2 ^ 32 :=
      wordFold_eq _ 0 (by norm_num)
    have h2 : (256 : Nat) ^ 4 = 2 ^ 32 := by norm_num
    rw [wordFold_eq _ _ hA, hR, hdlen, h2]
    omega

/-- The accumulator actually maintained by the loop: the `syncShift` of each
poll's delivery, folded in order. -/
def syncAcc (pre : List SyncIter) : Nat :=
  pre.foldl (fun a it => syncShift a (it.read.getD [])) 0

theorem syncAcc_eq_wordOfBytes (pre : List SyncIter)
    (h4 : ∀ it ∈ pre, (it.read.getD []).length ≤ 4) :
    syncAcc pre = wordOfBytes (syncStream pre) := by
  suffices hgen : ∀ a, pre.foldl (fun x it => syncShift x (it.read.getD [])) a =
      (syncStream pre).foldl (fun x b => ((x <<< 8) ||| b % 256) % 2 ^ 32) a by
    exact hgen 0
  induction pre with
  | nil => intro a; simp [syncStream]
  | cons it rest ih =>
    intro a
    have hit : (it.read.getD []).length ≤ 4 := h4 it (by simp)
    have hrest : ∀ j ∈ rest, (j.read.getD []).length ≤ 4 :=
      fun j hj => h4 j (by simp [hj])
    simp only [List.foldl_cons, syncStream, List.map_cons, List.flatten_cons,
      List.foldl_append]
    rw [ih hrest]
    unfold syncShift
    rw [List.take_of_length_le hit]
    rfl

/-- The polling loop processes every iteration whose elapsed time is still at
or below the 100 µs settle window, then breaks at the first poll past the
10 ms deadline, carrying the folded accumulator out. -/
theorem syncLoop_broke (brk : SyncIter) (post : List SyncIter)
    (hbrk : brk.elapsed > 10000) :
    ∀ (pre : List SyncIter) (acc : Nat),
      (∀ it ∈ pre, it.elapsed ≤ 100 ∧ it.read.isSome) →
      syncLoop acc (pre ++ brk :: post) =
        .broke (pre.foldl (fun a it => syncShift a (it.read.getD [])) acc) := by
  intro pre
  induction pre with
  | nil =>
    intro acc _
    simp [syncLoop, hbrk]
  | cons it rest ih =>
    intro acc hgood
    obtain ⟨hel, hsome⟩ := hgood it (by simp)
    obtain ⟨bs, hbs⟩ := Option.isSome_iff_exists.mp hsome
    have h1 : ¬ it.elapsed > 10000 := by omega
    have h2 : ¬ (it.elapsed > 100 ∧ acc = syncPattern) := by
      rintro ⟨h, _⟩; omega
    have hstep : syncLoop acc ((it :: rest) ++ brk :: post) =
        syncLoop (syncShift acc bs) (rest ++ brk :: post) := by
      simp only [List.cons_append, syncLoop, if_neg h1, if_neg h2, hbs]
      rfl
    rw [hstep, ih _ (fun j hj => hgood j (by simp [hj]))]
    simp [hbs]

/-- **C3, amended.** Run the sync loop over polls `pre` that all happen
within the 100 µs settle window and deliver data, followed by a poll past
the 10 ms deadline: `MpsseSync` succeeds iff the sliding accumulator —
fed with at most the *first 4 bytes of each individual read* — equals
`0xfaabfaaa` at loop exit; and whenever every read delivers at most 4 bytes,
that accumulator is exactly the 32-bit word formed by the last four bytes of
the full received stream. -/
theorem mpsseSync_amended (pre : List SyncIter) (brk : SyncIter) (post : List SyncIter)
    (hpre : ∀ it ∈ pre, it.elapsed ≤ 100 ∧ it.read.isSome)
    (hbrk : brk.elapsed > 10000) :
    mpsseSync true (pre ++ brk :: post) =
      some (if syncAcc pre = syncPattern then 0 else -1) ∧
    ((∀ it ∈ pre, (it.read.getD []).length ≤ 4) →
      syncAcc pre = wordOfBytes (lastFour (syncStream pre))) := by
  constructor
  · unfold mpsseSync
    rw [if_neg (by simp)]
    rw [syncLoop_broke brk post hbrk pre 0 hpre]
    by_cases h : syncAcc pre = syncPattern
    · rw [if_pos h]
      unfold syncAcc at h
      simp [h]
    · rw [if_neg h]
      unfold syncAcc at h
      simp [h]
  · intro h4
    rw [syncAcc_eq_wordOfBytes pre h4, wordOfBytes_eq_lastFour]

/-- Witness for `mpsseSync_amended`: the pattern split over two small reads
is accepted, and the accumulator equals the last-four-bytes word. -/
theorem mpsseSync_amended_witness :
    mpsseSync true
      [⟨30, some [0xfa, 0xab]⟩, ⟨60, some [0xfa, 0xaa]⟩, ⟨10050, some []⟩] = some 0 ∧
    syncAcc [⟨30, some [0xfa, 0xab]⟩, ⟨60, some [0xfa, 0xaa]⟩] =
      wordOfBytes (lastFour (syncStream [⟨30, some [0xfa, 0xab]⟩, ⟨60, some [0xfa, 0xaa]⟩])) := by
  have h := mpsseSync_amended
    [⟨30, some [0xfa, 0xab]⟩, ⟨60, some [0xfa, 0xaa]⟩] ⟨10050, some []⟩ []
    (by intro it hit; fin_cases hit <;> exact ⟨by norm_num, rfl⟩)
    (by norm_num)
  refine ⟨?_, h.2 (by intro it hit; fin_cases hit <;> norm_num)⟩
  have hl : ([⟨30, some [0xfa, 0xab]⟩, ⟨60, some [0xfa, 0xaa]⟩,
      ⟨10050, some []⟩] : List SyncIter) =
      [⟨30, some [0xfa, 0xab]⟩, ⟨60, some [0xfa, 0xaa]⟩] ++ [⟨10050, some []⟩] := rfl
  have hacc : syncAcc [⟨30, some [0xfa, 0xab]⟩, ⟨60, some [0xfa, 0xaa]⟩] = syncPattern := rfl
  rw [hl, h.1, if_pos hacc]

/-! ## `MpsseI2c` operations -/

/-- `FtdiDevice::MpsseSetLowerPins`: buffer `[SET_BITS_LOW, state, dir]` and
flush, returning -1 on either failure. -/
def mpsseSetLowerPins (env : Env) (state dir : Nat) (st : DevState) : Int × DevState :=
  match bufferBytes [SET_BITS_LOW, state, dir] st with
  | (e, st1) =>
    if e ≠ 0 then (-1, st1)
    else
      match bufferFlush env st1 with
      | (e2, st2) => if e2 ≠ 0 then (-1, st2) else (0, st2)

/-- `MpsseI2c::InitializePins`: clear the buffer, then drive both SCL
(ADBUS0) and SDA (ADBUS1) high as outputs. -/
def initializePins (env : Env) (st : DevState) : Int × DevState :=
  mpsseSetLowerPins env 0b0011 0b0011 (bufferClear st)

/-- `MpsseI2c::Start`: SDA low while SCL stays high, then SCL low, as two
separately flushed pin writes. -/
def i2cStart (env : Env) (st : DevState) : Int × DevState :=
  match mpsseSetLowerPins env 0b0001 0b0011 st with
  | (e, st1) =>
    if e ≠ 0 then (-1, st1)
    else
      match mpsseSetLowerPins env 0b0000 0b0011 st1 with
      | (e2, st2) => if e2 ≠ 0 then (-1, st2) else (0, st2)

/-- `MpsseI2c::Restart`: four separately flushed pin writes reproducing the
start timing from the data phase. -/
def i2cRestart (env : Env) (st : DevState) : Int × DevState :=
  match mpsseSetLowerPins env 0b0010 0b0011 st with
  | (e, st1) =>
    if e ≠ 0 then (-1, st1)
    else
      match mpsseSetLowerPins env 0b0011 0b0011 st1 with
      | (e2, st2) =>
        if e2 ≠ 0 then (-1, st2)
        else
          match mpsseSetLowerPins env 0b0001 0b0011 st2 with
          | (e3, st3) =>
            if e3 ≠ 0 then (-1, st3)
            else
              match mpsseSetLowerPins env 0b0000 0b0011 st3 with
              | (e4, st4) => if e4 ≠ 0 then (-1, st4) else (0, st4)

/-- `MpsseI2c::Stop`: SCL high first, then SDA high, as two separately
flushed pin writes. -/
def i2cStop (env : Env) (st : DevState) : Int × DevState :=
  match mpsseSetLowerPins env 0b0001 0b0011 st with
  | (e, st1) =>
    if e ≠ 0 then (-1, st1)
    else
      match mpsseSetLowerPins env 0b0011 0b0011 st1 with
      | (e2, st2) => if e2 ≠ 0 then (-1, st2) else (0, st2)

/-- `MpsseI2c::Addr7ToData`: 7-bit address plus read/write bit, as a uint8. -/
def addr7ToData (addr7 : Nat) (isRead : Bool) : Nat :=
  ((addr7 <<< 1) ||| (if isRead then 1 else 0)) % 256

/-- The command block `MpsseI2c::WriteByte` buffers: shift out 8 bits
MSB-first on the idle-low edge, release SDA to input, clock in the 1-bit
acknowledge, request an immediate flush back to the host, and re-acquire SDA
as a driven-low output. -/
def writeByteCmds (data : Nat) : List Nat :=
  [MPSSE_IDLE_LOW_WRITE ||| MPSSE_BITMODE, 0x7, data % 256,
   SET_BITS_LOW, 0b0000, 0b0001,
   MPSSE_IDLE_LOW_READ ||| MPSSE_BITMODE, 0,
   SEND_IMMEDIATE,
   SET_BITS_LOW, 0b0000, 0b0011]

/-- `MpsseI2c::WriteByte`: buffer the command block, flush, read the one ack
byte; low bit set means NACK (returns 0), clear means ACK (returns 1),
-1 on any transport failure. -/
def writeByte (env : Env) (data : Nat) (st : DevState) : Int × DevState :=
  match bufferBytes (writeByteCmds data) st with
  | (e, st1) =>
    if e ≠ 0 then (-1, st1)
    else
      match bufferFlush env st1 with
      | (e2, st2) =>
        if e2 ≠ 0 then (-1, st2)
        else
          match devRead env 1 st2 with
          | (e3, bs, st3) =>
            if e3 ≠ 0 then (-1, st3)
            else (if (bs.headD 0) &&& 1 ≠ 0 then 0 else 1, st3)

/-- `MpsseI2c::ReadBytes` per-byte command chunks. -/
def relSdaCmds : List Nat := [SET_BITS_LOW, 0b0000, 0b0001]

def readCmd : List Nat := [MPSSE_IDLE_LOW_READ ||| MPSSE_BITMODE, 0x7]

def acqSdaCmds : List Nat := [SET_BITS_LOW, 0b0000, 0b0011]

def sendAckCmds (isLast : Bool) : List Nat :=
  [MPSSE_IDLE_LOW_WRITE ||| MPSSE_BITMODE ||| MPSSE_LSB, 0, if isLast then 1 else 0]

/-- One iteration of the `ReadBytes` loop: release SDA, clock in 8 bits,
re-acquire SDA, clock out the ack bit (1 = NACK on the last byte). -/
def readBytesIter (isLast : Bool) (st : DevState) : Int × DevState :=
  match bufferBytes relSdaCmds st with
  | (e1, s1) =>
    if e1 ≠ 0 then (-1, s1)
    else
      match bufferBytes readCmd s1 with
      | (e2, s2) =>
        if e2 ≠ 0 then (-1, s2)
        else
          match bufferBytes acqSdaCmds s2 with
          | (e3, s3) =>
            if e3 ≠ 0 then (-1, s3)
            else
              match bufferBytes (sendAckCmds isLast) s3 with
              | (e4, s4) => if e4 ≠ 0 then (-1, s4) else (0, s4)

/-- The `for (int i = 0; i < len; ++i)` loop of `ReadBytes`, counting the
remaining bytes (the iteration with one byte remaining is the last). -/
def readBytesLoop : Nat → DevState → Int × DevState
  | 0, st => (0, st)
  | n + 1, st =>
    match readBytesIter (n == 0) st with
    | (e, st1) => if e ≠ 0 then (-1, st1) else readBytesLoop n st1

/-- `MpsseI2c::ReadBytes`: no-op success for 0 bytes; otherwise batch all
per-byte command chunks plus one `SEND_IMMEDIATE`, flush once, and bulk-read
`len` bytes. -/
def readBytes (env : Env) (len : Nat) (st : DevState) : Int × DevState :=
  if len = 0 then (0, st)
  else
    match readBytesLoop len st with
    | (e, st1) =>
      if e ≠ 0 then (-1, st1)
      else
        match bufferByte SEND_IMMEDIATE st1 with
        | (e2, st2) =>
          if e2 ≠ 0 then (-1, st2)
          else
            match bufferFlush env st2 with
            | (e3, st3) =>
              if e3 ≠ 0 then (-1, st3)
              else
                match devRead env len st3 with
                | (e4, _, st4) => if e4 ≠ 0 then (-1, st4) else (0, st4)

/-! ## Pin-state interpretation of the issued command bytes

`Pins` holds the `state`/`dir` byte pair as last driven (bit 0 = SCL on
ADBUS0, bit 1 = SDA on ADBUS1; direction bit 1 = output).  A `SET_BITS_LOW`
triple installs its arguments.  A data-shift command leaves the clock at its
idle-low level and, for writes, leaves the data line holding the last bit
shifted out (MSB-first commands end on bit `7-n`, LSB-first on bit `n`, for
a length byte `n` meaning `n+1` bits); a read-shift drives nothing on SDA. -/

structure Pins where
  state : Nat
  dir : Nat
  deriving Repr, DecidableEq

/-- Interpret a flushed payload: `0x80` = `SET_BITS_LOW`, `0x13` = MSB-first
idle-low bit write, `0x1b` = LSB-first idle-low bit write, `0x22` = idle-low
bit read, `0x87` = `SEND_IMMEDIATE` (no pin effect). -/
def pinRun : Pins → List Nat → Pins
  | p, [] => p
  | _, 0x80 :: s :: d :: rest => pinRun ⟨s % 256, d % 256⟩ rest
  | p, 0x13 :: n :: data :: rest =>
      pinRun ⟨(p.state &&& 0xfc) ||| (if data.testBit (7 - n % 8) then 2 else 0), p.dir⟩ rest
  | p, 0x1b :: n :: data :: rest =>
      pinRun ⟨(p.state &&& 0xfc) ||| (if data.testBit (n % 8) then 2 else 0), p.dir⟩ rest
  | p, 0x22 :: _ :: rest => pinRun ⟨p.state &&& 0xfe, p.dir⟩ rest
  | p, 0x87 :: rest => pinRun p rest
  | p, _ :: rest => pinRun p rest

/-- A wire write applies its payload to the pins; a read leaves them. -/
def pinStepEv (p : Pins) (ev : Ev) : Pins :=
  match ev with
  | .wr payload => pinRun p payload
  | .rd _ => p

def pinsOf (p : Pins) (trace : List Ev) : Pins := trace.foldl pinStepEv p

/-! ## Basic per-operation lemmas (successful-transport runs) -/

def setPinsEv (state dir : Nat) : Ev := Ev.wr [SET_BITS_LOW, state, dir]

def startEvs : List Ev := [setPinsEv 1 3, setPinsEv 0 3]

def restartEvs : List Ev := [setPinsEv 2 3, setPinsEv 3 3, setPinsEv 1 3, setPinsEv 0 3]

def stopEvs : List Ev := [setPinsEv 1 3, setPinsEv 3 3]

def writeByteEvs (data : Nat) : List Ev := [Ev.wr (writeByteCmds data), Ev.rd 1]

/-- An environment with an ack byte available for every 1-byte read. -/
def AckReads (env : Env) : Prop := ∀ n, ∃ a, env.readData n 1 = some [a]

theorem mpsseSetLowerPins_ok (env : Env) (hW : GoodWrites env) (s d : Nat)
    (st : DevState) (hb : st.buffer = []) :
    mpsseSetLowerPins env s d st =
      (0, { st with buffer := [], writes := st.writes + 1,
                    trace := st.trace ++ [setPinsEv s d] }) := by
  have hW' : ∀ n p, env.writeAccept n p = (p.length : Int) := hW
  unfold mpsseSetLowerPins
  simp [bufferBytes, bufferFlush, kBufferSize, hb, hW', setPinsEv]

theorem i2cStart_ok (env : Env) (hW : GoodWrites env) (st : DevState)
    (hb : st.buffer = []) :
    i2cStart env st =
      (0, { st with buffer := [], writes := st.writes + 2,
                    trace := st.trace ++ startEvs }) := by
  unfold i2cStart
  rw [mpsseSetLowerPins_ok env hW _ _ st hb]
  simp only [ne_eq, not_true_eq_false, if_neg, ite_false, if_false]
  rw [mpsseSetLowerPins_ok env hW _ _ _ rfl]
  simp [startEvs]

set_option maxHeartbeats 2000000 in
theorem i2cRestart_ok (env : Env) (hW : GoodWrites env) (st : DevState)
    (hb : st.buffer = []) :
    i2cRestart env st =
      (0, { st with buffer := [], writes := st.writes + 4,
                    trace := st.trace ++ restartEvs }) := by
  unfold i2cRestart
  rw [mpsseSetLowerPins_ok env hW _ _ st hb]
  simp only [ne_eq, not_true_eq_false, if_neg, ite_false, if_false]
  rw [mpsseSetLowerPins_ok env hW _ _ _ rfl]
  simp only [ne_eq, not_true_eq_false, if_neg, ite_false, if_false]
  rw [mpsseSetLowerPins_ok env hW _ _ _ rfl]
  simp only [ne_eq, not_true_eq_false, if_neg, ite_false, if_false]
  rw [mpsseSetLowerPins_ok env hW _ _ _ rfl]
  simp [restartEvs]

theorem i2cStop_ok (env : Env) (hW : GoodWrites env) (st : DevState)
    (hb : st.buffer = []) :
    i2cStop env st =
      (0, { st with buffer := [], writes := st.writes + 2,
                    trace := st.trace ++ stopEvs }) := by
  unfold i2cStop
  rw [mpsseSetLowerPins_ok env hW _ _ st hb]
  simp only [ne_eq, not_true_eq_false, if_neg, ite_false, if_false]
  rw [mpsseSetLowerPins_ok env hW _ _ _ rfl]
  simp [stopEvs]

theorem writeByte_ok (env : Env) (hW : GoodWrites env) (x : Nat) (st : DevState)
    (hb : st.buffer = []) (a : Nat) (ha : env.readData st.reads 1 = some [a]) :
    writeByte env x st =
      (if a &&& 1 ≠ 0 then 0 else 1,
       { st with buffer := [], writes := st.writes + 1, reads := st.reads + 1,
                 trace := st.trace ++ writeByteEvs x }) := by
  have hW' : ∀ n p, env.writeAccept n p = (p.length : Int) := hW
  unfold writeByte
  simp [bufferBytes, bufferFlush, devRead, writeByteCmds, kBufferSize, hb, hW', ha,
    writeByteEvs]

/-! ## C8: pin-state chaining over `start(); writeByte(x)*; stop()` -/

/-- The states `x` traverses running `start(); writeByte(x) for x in xs; stop()`
unconditionally in sequence, as `Transaction` would on an all-ACK run. -/
def i2cWriteSeq (env : Env) (xs : List Nat) (st : DevState) : DevState :=
  xs.foldl (fun s x => (writeByte env x s).2) st

theorem i2cWriteSeq_ok (env : Env) (hW : GoodWrites env) (hA : AckReads env)
    (xs : List Nat) :
    ∀ st : DevState, st.buffer = [] →
      i2cWriteSeq env xs st =
        { st with buffer := [], writes := st.writes + xs.length,
                  reads := st.reads + xs.length,
                  trace := st.trace ++ (xs.map writeByteEvs).flatten } := by
  induction xs with
  | nil =>
    intro st hb
    simp only [i2cWriteSeq, List.foldl_nil, List.length_nil, Nat.add_zero, List.map_nil,
      List.flatten_nil, List.append_nil]
    rw [← hb]
  | cons x rest ih =>
    intro st hb
    obtain ⟨a, ha⟩ := hA st.reads
    have hwb := writeByte_ok env hW x st hb a ha
    unfold i2cWriteSeq
    rw [List.foldl_cons, hwb]
    have := ih { st with buffer := [], writes := st.writes + 1, reads := st.reads + 1,
                         trace := st.trace ++ writeByteEvs x } rfl
    unfold i2cWriteSeq at this
    rw [this]
    simp [writeByteEvs]
    omega

theorem pinsOf_append (p : Pins) (t1 t2 : List Ev) :
    pinsOf p (t1 ++ t2) = pinsOf (pinsOf p t1) t2 := by
  unfold pinsOf
  exact List.foldl_append _ _ _ _

/-- A `WriteByte` command block always leaves both lines driven low: its
final `SET_BITS_LOW 0 3` overrides whatever the data shift left behind. -/
theorem pinRun_writeByteCmds (p : Pins) (x : Nat) :
    pinRun p (writeByteCmds x) = ⟨0, 3⟩ := rfl

theorem pinsOf_writeByteEvs (p : Pins) (x : Nat) :
    pinsOf p (writeByteEvs x) = ⟨0, 3⟩ := rfl

theorem pinsOf_writeSeqEvs (xs : List Nat) :
    pinsOf ⟨0, 3⟩ ((xs.map writeByteEvs).flatten) = ⟨0, 3⟩ := by
  induction xs with
  | nil => rfl
  | cons x rest ih =>
    rw [List.map_cons, List.flatten_cons, pinsOf_append, pinsOf_writeByteEvs, ih]

theorem pinsOf_stopEvs (p : Pins) : pinsOf p stopEvs = ⟨3, 3⟩ := rfl

theorem pinsOf_startEvs (p : Pins) : pinsOf p startEvs = ⟨0, 3⟩ := rfl

/-- **C8.** Over the full command trace of
`initializePins(); start(); writeByte(x) for x in xs; stop()` under a
fault-free transport, the pin postconditions chain: after initialization
(before `start`) both lines are driven high; after `start` SCL and SDA are
both driven low; before and after every `writeByte` both lines are driven
low (the block re-asserts SDA as a driven-low output after sampling the
acknowledge bit); and after `stop` both lines are high. -/
theorem i2c_pin_postconditions (env : Env) (hW : GoodWrites env) (hA : AckReads env)
    (xs : List Nat) (p : Pins) :
    pinsOf p (initializePins env initSt).2.trace = ⟨3, 3⟩ ∧
    pinsOf p (i2cStart env (initializePins env initSt).2).2.trace = ⟨0, 3⟩ ∧
    (∀ k, k ≤ xs.length →
      pinsOf p (i2cWriteSeq env (xs.take k)
        (i2cStart env (initializePins env initSt).2).2).trace = ⟨0, 3⟩) ∧
    pinsOf p (i2cStop env (i2cWriteSeq env xs
      (i2cStart env (initializePins env initSt).2).2)).2.trace = ⟨3, 3⟩ := by
  have hinit : initializePins env initSt =
      (0, { initSt with buffer := [], writes := 1, trace := [setPinsEv 3 3] }) := by
    unfold initializePins
    rw [mpsseSetLowerPins_ok env hW _ _ (bufferClear initSt) rfl]
    rfl
  have hstart := i2cStart_ok env hW (initializePins env initSt).2 (by rw [hinit])
  have hs2 : (i2cStart env (initializePins env initSt).2).2.trace =
      [setPinsEv 3 3] ++ startEvs := by
    rw [hstart, hinit]
  have hs2b : (i2cStart env (initializePins env initSt).2).2.buffer = [] := by
    rw [hstart]
  have hseq : ∀ ys : List Nat,
      pinsOf p (i2cWriteSeq env ys (i2cStart env (initializePins env initSt).2).2).trace
        = ⟨0, 3⟩ := by
    intro ys
    rw [i2cWriteSeq_ok env hW hA ys _ hs2b]
    simp only []
    rw [hs2, List.append_assoc, pinsOf_append, pinsOf_append]
    have h1 : pinsOf p [setPinsEv 3 3] = ⟨3, 3⟩ := rfl
    rw [h1, pinsOf_startEvs, pinsOf_writeSeqEvs]
  refine ⟨?_, ?_, ?_, ?_⟩
  · rw [hinit]
    rfl
  · rw [hs2, pinsOf_append, pinsOf_startEvs]
  · intro k _
    exact hseq (xs.take k)
  · have hwseq := i2cWriteSeq_ok env hW hA xs _ hs2b
    have hwb : (i2cWriteSeq env xs (i2cStart env (initializePins env initSt).2).2).buffer
        = [] := by
      rw [hwseq]
    rw [i2cStop_ok env hW _ hwb]
    simp only []
    rw [pinsOf_append, pinsOf_stopEvs]

/-- Witness for `i2c_pin_postconditions`: one written byte under an
all-accepting transport that always ACKs. -/
theorem i2c_pin_postconditions_witness :
    pinsOf ⟨0, 0⟩ (i2cStop (⟨fun _ p => (p.length : Int), fun _ len => some (List.replicate len 0)⟩ : Env)
      (i2cWriteSeq ⟨fun _ p => (p.length : Int), fun _ len => some (List.replicate len 0)⟩ [0x55]
        (i2cStart ⟨fun _ p => (p.length : Int), fun _ len => some (List.replicate len 0)⟩
          (initializePins ⟨fun _ p => (p.length : Int), fun _ len => some (List.replicate len 0)⟩
            initSt).2).2)).2.trace = ⟨3, 3⟩ :=
  (i2c_pin_postconditions ⟨fun _ p => (p.length : Int), fun _ len => some (List.replicate len 0)⟩
    (fun _ _ => rfl) (fun _ => ⟨0, rfl⟩) [0x55] ⟨0, 0⟩).2.2.2

/-! ## C7: `ReadBytes` batching -/

theorem bufferBytes_ok (data : List Nat) (st : DevState)
    (h : st.buffer.length + data.length ≤ 512) :
    bufferBytes data st = (0, { st with buffer := st.buffer ++ data }) := by
  unfold bufferBytes
  rw [if_neg (by unfold kBufferSize; omega)]

theorem bufferByte_ok (b : Nat) (st : DevState) (h : st.buffer.length < 512) :
    bufferByte b st = (0, { st with buffer := st.buffer ++ [b] }) := by
  unfold bufferByte
  rw [if_neg (by unfold kBufferSize; omega)]

theorem bufferFlush_ok (env : Env) (hW : GoodWrites env) (st : DevState)
    (hne : st.buffer ≠ []) :
    bufferFlush env st =
      (0, { st with buffer := [], writes := st.writes + 1,
                    trace := st.trace ++ [Ev.wr st.buffer] }) := by
  have hW' : ∀ n p, env.writeAccept n p = (p.length : Int) := hW
  have hlen : st.buffer.length ≠ 0 := by simpa using hne
  unfold bufferFlush
  rw [if_neg hlen]
  simp [hW']

/-- The command bytes one `ReadBytes` iteration appends. -/
def readIterCmds (isLast : Bool) : List Nat :=
  relSdaCmds ++ readCmd ++ acqSdaCmds ++ sendAckCmds isLast

/-- The command bytes the whole `ReadBytes` loop appends, counting down the
remaining bytes. -/
def readLoopCmds : Nat → List Nat
  | 0 => []
  | n + 1 => readIterCmds (n == 0) ++ readLoopCmds n

theorem readIterCmds_length (b : Bool) : (readIterCmds b).length = 11 := by
  cases b <;> rfl

theorem readLoopCmds_length (n : Nat) : (readLoopCmds n).length = 11 * n := by
  induction n with
  | zero => rfl
  | succ n ih =>
    unfold readLoopCmds
    rw [List.length_append, readIterCmds_length, ih]
    ring

theorem readBytesIter_ok (b : Bool) (st : DevState) (h : st.buffer.length + 11 ≤ 512) :
    readBytesIter b st = (0, { st with buffer := st.buffer ++ readIterCmds b }) := by
  unfold readBytesIter
  rw [bufferBytes_ok relSdaCmds st (by simp only [relSdaCmds, List.length_cons, List.length_nil]; omega)]
  simp only [ne_eq, not_true_eq_false, if_neg, ite_false, if_false]
  rw [bufferBytes_ok readCmd _
    (by simp only [readCmd, relSdaCmds, List.length_append, List.length_cons, List.length_nil]; omega)]
  simp only [ne_eq, not_true_eq_false, if_neg, ite_false, if_false]
  rw [bufferBytes_ok acqSdaCmds _
    (by simp only [acqSdaCmds, readCmd, relSdaCmds, List.length_append, List.length_cons, List.length_nil]; omega)]
  simp only [ne_eq, not_true_eq_false, if_neg, ite_false, if_false]
  rw [bufferBytes_ok (sendAckCmds b) _
    (by simp only [sendAckCmds, acqSdaCmds, readCmd, relSdaCmds, List.length_append,
          List.length_cons, List.length_nil]; omega)]
  simp [readIterCmds]

theorem readBytesLoop_ok : ∀ (n : Nat) (st : DevState),
    st.buffer.length + 11 * n ≤ 512 →
    readBytesLoop n st = (0, { st with buffer := st.buffer ++ readLoopCmds n }) := by
  intro n
  induction n with
  | zero =>
    intro st _
    simp [readBytesLoop, readLoopCmds]
  | succ n ih =>
    intro st h
    unfold readBytesLoop
    rw [readBytesIter_ok _ st (by omega)]
    simp only [ne_eq, not_true_eq_false, if_neg, ite_false, if_false]
    rw [ih _ (by simp only [List.length_append, readIterCmds_length]; omega)]
    simp [readLoopCmds]

theorem readLoopCmds_eq (n : Nat) :
    readLoopCmds (n + 1) =
      (List.replicate n (readIterCmds false)).flatten ++ readIterCmds true := by
  induction n with
  | zero => simp [readLoopCmds]
  | succ n ih =>
    show readIterCmds (n + 1 == 0) ++ readLoopCmds (n + 1) = _
    rw [ih]
    simp [List.replicate_succ]

/-- **C7, amended.** For `1 ≤ count ≤ 46` (so that the per-byte command
blocks and the `SEND_IMMEDIATE` fit the 512-byte buffer), `ReadBytes` under a
fault-free transport batches all per-byte steps into a single flushed
payload — `count-1` blocks carrying ack bit 0 followed by one block carrying
ack (NACK) bit 1 — followed by exactly one bulk read of `count` bytes;
`count = 0` is a no-op success.  For `count ≥ 47` the append overflows the
512-byte buffer and `ReadBytes` fails without flushing (see the
counterexample theorem). -/
theorem readBytes_spec (env : Env) (hW : GoodWrites env) (len : Nat)
    (h1 : 1 ≤ len) (h46 : len ≤ 46) (st : DevState) (hb : st.buffer = [])
    (bs : List Nat) (hr : env.readData st.reads len = some bs) (hbs : bs.length = len) :
    readBytes env len st =
      (0, { st with buffer := [], writes := st.writes + 1, reads := st.reads + 1,
                    trace := st.trace ++
                      [Ev.wr (readLoopCmds len ++ [SEND_IMMEDIATE]), Ev.rd len] }) ∧
    readLoopCmds len =
      (List.replicate (len - 1) (readIterCmds false)).flatten ++ readIterCmds true ∧
    readBytes env 0 st = (0, st) := by
  have hlen : (readLoopCmds len).length = 11 * len := readLoopCmds_length len
  refine ⟨?_, ?_, by simp [readBytes]⟩
  · have hlb : (st.buffer ++ readLoopCmds len).length < 512 := by
      rw [List.length_append, hb, hlen]
      simp only [List.length_nil]
      omega
    have hfb : st.buffer ++ readLoopCmds len ++ [SEND_IMMEDIATE] ≠ [] := by
      simp
    unfold readBytes
    rw [if_neg (by omega)]
    rw [readBytesLoop_ok len st (by rw [hb]; simp only [List.length_nil]; omega)]
    dsimp only
    simp only [ne_eq, not_true_eq_false, if_neg, ite_false, if_false]
    rw [bufferByte_ok SEND_IMMEDIATE _ hlb]
    dsimp only
    simp only [ne_eq, not_true_eq_false, if_neg, ite_false, if_false]
    rw [bufferFlush_ok env hW _ hfb]
    dsimp only
    simp only [ne_eq, not_true_eq_false, if_neg, ite_false, if_false]
    unfold devRead
    simp [hb, hr, hbs]
  · obtain ⟨m, rfl⟩ : ∃ m, len = m + 1 := ⟨len - 1, by omega⟩
    simpa using readLoopCmds_eq m

/-- The all-accepting, always-delivering environment. -/
def allOkEnv : Env := ⟨fun _ p => (p.length : Int), fun _ len => some (List.replicate len 0)⟩

/-- Witness for `readBytes_spec` at `count = 2`. -/
theorem readBytes_spec_witness :
    readBytes allOkEnv 2 initSt =
      (0, { initSt with buffer := [], writes := 1, reads := 1,
                        trace := [Ev.wr (readLoopCmds 2 ++ [SEND_IMMEDIATE]), Ev.rd 2] }) :=
  ((readBytes_spec allOkEnv (fun _ _ => rfl) 2 (by norm_num) (by norm_num) initSt rfl
    (List.replicate 2 0) rfl rfl).1)

set_option maxRecDepth 100000 in
/-- **C7, counterexample.** At `count = 47` the batched command blocks no
longer fit the 512-byte buffer: `ReadBytes` fails with -1 before flushing
anything — no wire write and no bulk read happen — contradicting the claim
for every `count ≥ 0`. -/
theorem readBytes_47_overflow :
    (readBytes allOkEnv 47 initSt).1 = -1 ∧
    (readBytes allOkEnv 47 initSt).2.trace = [] ∧
    (readBytes allOkEnv 47 initSt).2.writes = 0 ∧
    (readBytes allOkEnv 47 initSt).2.reads = 0 := by
  exact ⟨rfl, rfl, rfl, rfl⟩

/-! ## `MpsseI2c::Transaction` (C1, C2, C10) -/

/-- The `for (int i = 0; i < tx_len; ++i)` write loop of `Transaction`:
`-1` aborts on a transport error, `-2` on the first NACK. -/
def txWriteLoop (env : Env) : List Nat → DevState → Int × DevState
  | [], st => (0, st)
  | b :: rest, st =>
    match writeByte env b st with
    | (a, st1) =>
      if a < 0 then (-1, st1)
      else if a = 0 then (-2, st1)
      else txWriteLoop env rest st1

/-- Steps 4-5 of `Transaction`: write the read-direction address byte, then
(for `rx_len > 0`) bulk-read `rx_len` bytes (the `int` length is truncated to
`uint16_t` at the `ReadBytes` call). -/
def transactionTail (env : Env) (addr7 : Nat) (rxLen : Int) (st : DevState) :
    Int × DevState :=
  match writeByte env (addr7ToData addr7 true) st with
  | (a, s1) =>
    if a < 0 then (-1, s1)
    else if a = 0 then (-2, s1)
    else if rxLen = 0 then (0, s1)
    else
      match readBytes env (rxLen.toNat % 65536) s1 with
      | (e, s2) => (if e ≠ 0 then -1 else 0, s2)

/-- The body of `Transaction` between `Start` and the scope-guarded `Stop`:
write phase (address + data bytes, aborting at the first NACK or fault),
optional repeated start — whose return value the code discards — and the
read phase. -/
def transactionBody (env : Env) (addr7 : Nat) (txs : List Nat) (txLen rxLen : Int)
    (st : DevState) : Int × DevState :=
  if txLen > 0 then
    match writeByte env (addr7ToData addr7 false) st with
    | (a, s1) =>
      if a < 0 then (-1, s1)
      else if a = 0 then (-2, s1)
      else
        match txWriteLoop env (txs.take txLen.toNat) s1 with
        | (e, s2) =>
          if e ≠ 0 then (e, s2)
          else if rxLen = 0 then (0, s2)
          else transactionTail env addr7 rxLen (i2cRestart env s2).2
  else transactionTail env addr7 rxLen st

/-- `MpsseI2c::Transaction`: reject negative lengths before doing anything;
then issue `Start` (its return value is discarded), run the body, and
unconditionally issue `Stop` on the way out (the scope guard), discarding
`Stop`'s return value as well. -/
def transaction (env : Env) (addr7 : Nat) (txs : List Nat) (txLen rxLen : Int)
    (st : DevState) : Int × DevState :=
  if txLen < 0 ∨ rxLen < 0 then (-1, st)
  else
    match transactionBody env addr7 txs txLen rxLen (i2cStart env st).2 with
    | (r, st2) => (r, (i2cStop env st2).2)

/-- **C10.** A `Transaction` call with `tx_len < 0` or `rx_len < 0` returns
-1 immediately, before `Start`: the device state — pending buffer, I/O
counters, and trace — is exactly as before the call, so nothing was
buffered or flushed and no `Stop` was issued. -/
theorem transaction_negative_args (env : Env) (addr7 : Nat) (txs : List Nat)
    (txLen rxLen : Int) (st : DevState) (h : txLen < 0 ∨ rxLen < 0) :
    transaction env addr7 txs txLen rxLen st = (-1, st) := by
  unfold transaction
  rw [if_pos h]

/-- Witness for `transaction_negative_args` at `tx_len = -1`. -/
theorem transaction_negative_args_witness :
    ((-1 : Int) < 0 ∨ (2 : Int) < 0) ∧
    transaction allOkEnv 0x18 [] (-1) 2 initSt = (-1, initSt) :=
  ⟨Or.inl (by norm_num),
   transaction_negative_args allOkEnv 0x18 [] (-1) 2 initSt (Or.inl (by norm_num))⟩

/-! ## C2: result taxonomy and fault propagation -/

theorem bufferBytes_reads (data : List Nat) (st : DevState) :
    ((bufferBytes data st).2).reads = st.reads := by
  unfold bufferBytes
  split_ifs <;> rfl

theorem bufferByte_reads (b : Nat) (st : DevState) :
    ((bufferByte b st).2).reads = st.reads := by
  unfold bufferByte
  split_ifs <;> rfl

theorem bufferFlush_reads (env : Env) (st : DevState) :
    ((bufferFlush env st).2).reads = st.reads := by
  unfold bufferFlush
  dsimp only
  split_ifs <;> rfl

theorem mpsseSetLowerPins_reads (env : Env) (s d : Nat) (st : DevState) :
    (mpsseSetLowerPins env s d st).2.reads = st.reads := by
  unfold mpsseSetLowerPins
  rcases h1 : bufferBytes [SET_BITS_LOW, s, d] st with ⟨e, st1⟩
  have r1 : st1.reads = st.reads := by
    have := bufferBytes_reads [SET_BITS_LOW, s, d] st
    rw [h1] at this
    exact this
  rcases h2 : bufferFlush env st1 with ⟨e2, st2⟩
  have r2 : st2.reads = st1.reads := by
    have := bufferFlush_reads env st1
    rw [h2] at this
    exact this
  by_cases he : e ≠ 0
  · simp [h1, he, r1]
  · by_cases he2 : e2 ≠ 0 <;> simp [h1, h2, he, he2, r1, r2]

theorem i2cStart_reads (env : Env) (st : DevState) :
    (i2cStart env st).2.reads = st.reads := by
  unfold i2cStart
  rcases h1 : mpsseSetLowerPins env 1 3 st with ⟨e, st1⟩
  have r1 : st1.reads = st.reads := by
    have := mpsseSetLowerPins_reads env 1 3 st
    rw [h1] at this
    exact this
  rcases h2 : mpsseSetLowerPins env 0 3 st1 with ⟨e2, st2⟩
  have r2 : st2.reads = st1.reads := by
    have := mpsseSetLowerPins_reads env 0 3 st1
    rw [h2] at this
    exact this
  by_cases he : e ≠ 0
  · simp [h1, he, r1]
  · by_cases he2 : e2 ≠ 0 <;> simp [h1, h2, he, he2, r1, r2]

theorem i2cStop_reads (env : Env) (st : DevState) :
    (i2cStop env st).2.reads = st.reads := by
  unfold i2cStop
  rcases h1 : mpsseSetLowerPins env 1 3 st with ⟨e, st1⟩
  have r1 : st1.reads = st.reads := by
    have := mpsseSetLowerPins_reads env 1 3 st
    rw [h1] at this
    exact this
  rcases h2 : mpsseSetLowerPins env 3 3 st1 with ⟨e2, st2⟩
  have r2 : st2.reads = st1.reads := by
    have := mpsseSetLowerPins_reads env 3 3 st1
    rw [h2] at this
    exact this
  by_cases he : e ≠ 0
  · simp [h1, he, r1]
  · by_cases he2 : e2 ≠ 0 <;> simp [h1, h2, he, he2, r1, r2]

theorem i2cRestart_reads (env : Env) (st : DevState) :
    (i2cRestart env st).2.reads = st.reads := by
  unfold i2cRestart
  rcases h1 : mpsseSetLowerPins env 2 3 st with ⟨e1, st1⟩
  have r1 : st1.reads = st.reads := by
    have := mpsseSetLowerPins_reads env 2 3 st
    rw [h1] at this
    exact this
  rcases h2 : mpsseSetLowerPins env 3 3 st1 with ⟨e2, st2⟩
  have r2 : st2.reads = st1.reads := by
    have := mpsseSetLowerPins_reads env 3 3 st1
    rw [h2] at this
    exact this
  rcases h3 : mpsseSetLowerPins env 1 3 st2 with ⟨e3, st3⟩
  have r3 : st3.reads = st2.reads := by
    have := mpsseSetLowerPins_reads env 1 3 st2
    rw [h3] at this
    exact this
  rcases h4 : mpsseSetLowerPins env 0 3 st3 with ⟨e4, st4⟩
  have r4 : st4.reads = st3.reads := by
    have := mpsseSetLowerPins_reads env 0 3 st3
    rw [h4] at this
    exact this
  by_cases he1 : e1 ≠ 0
  · simp [h1, he1, r1]
  · by_cases he2 : e2 ≠ 0
    · simp [h1, h2, he1, he2, r1, r2]
    · by_cases he3 : e3 ≠ 0
      · simp [h1, h2, h3, he1, he2, he3, r1, r2, r3]
      · by_cases he4 : e4 ≠ 0 <;>
          simp [h1, h2, h3, h4, he1, he2, he3, he4, r1, r2, r3, r4]

theorem readBytesIter_reads (b : Bool) (st : DevState) :
    (readBytesIter b st).2.reads = st.reads := by
  unfold readBytesIter
  rcases h1 : bufferBytes relSdaCmds st with ⟨e1, s1⟩
  have r1 : s1.reads = st.reads := by
    have := bufferBytes_reads relSdaCmds st
    rw [h1] at this
    exact this
  rcases h2 : bufferBytes readCmd s1 with ⟨e2, s2⟩
  have r2 : s2.reads = s1.reads := by
    have := bufferBytes_reads readCmd s1
    rw [h2] at this
    exact this
  rcases h3 : bufferBytes acqSdaCmds s2 with ⟨e3, s3⟩
  have r3 : s3.reads = s2.reads := by
    have := bufferBytes_reads acqSdaCmds s2
    rw [h3] at this
    exact this
  rcases h4 : bufferBytes (sendAckCmds b) s3 with ⟨e4, s4⟩
  have r4 : s4.reads = s3.reads := by
    have := bufferBytes_reads (sendAckCmds b) s3
    rw [h4] at this
    exact this
  by_cases he1 : e1 ≠ 0
  · simp [h1, he1, r1]
  · by_cases he2 : e2 ≠ 0
    · simp [h1, h2, he1, he2, r1, r2]
    · by_cases he3 : e3 ≠ 0
      · simp [h1, h2, h3, he1, he2, he3, r1, r2, r3]
      · by_cases he4 : e4 ≠ 0 <;>
          simp [h1, h2, h3, h4, he1, he2, he3, he4, r1, r2, r3, r4]

theorem readBytesLoop_reads : ∀ (n : Nat) (st : DevState),
    (readBytesLoop n st).2.reads = st.reads := by
  intro n
  induction n with
  | zero => intro st; rfl
  | succ n ih =>
    intro st
    unfold readBytesLoop
    rcases h1 : readBytesIter (n == 0) st with ⟨e, st1⟩
    have r1 : st1.reads = st.reads := by
      have := readBytesIter_reads (n == 0) st
      rw [h1] at this
      exact this
    by_cases he : e ≠ 0
    · simp [h1, he, r1]
    · simp [h1, he, ih st1, r1]

/-- The environment delivers nothing for the `j`-th `Read` call: it errors
or times out whatever length is requested. -/
def ReadFaultAt (env : Env) (j : Nat) : Prop := ∀ len, env.readData j len = none

theorem writeByte_fault_inv (env : Env) (j : Nat) (hj : ReadFaultAt env j)
    (x : Nat) (st : DevState) (hr : st.reads ≤ j) :
    (writeByte env x st).2.reads ≤ j ∨
    ((writeByte env x st).2.reads = j + 1 ∧ (writeByte env x st).1 = -1) := by
  unfold writeByte
  rcases h1 : bufferBytes (writeByteCmds x) st with ⟨e, st1⟩
  have r1 : st1.reads = st.reads := by
    have := bufferBytes_reads (writeByteCmds x) st
    rw [h1] at this
    exact this
  by_cases he : e ≠ 0
  · left
    simp [h1, he]
    omega
  · rcases h2 : bufferFlush env st1 with ⟨e2, st2⟩
    have r2 : st2.reads = st1.reads := by
      have := bufferFlush_reads env st1
      rw [h2] at this
      exact this
    by_cases he2 : e2 ≠ 0
    · left
      simp [h1, h2, he, he2]
      omega
    · rcases Nat.lt_or_ge st.reads j with hlt | hge
      · left
        cases hdr : env.readData st2.reads 1 with
        | none => simp [h1, h2, he, he2, devRead, hdr]; omega
        | some bs =>
          by_cases hl : bs.length = 1 <;> simp [h1, h2, he, he2, devRead, hdr, hl] <;> omega
      · have hj' : st.reads = j := le_antisymm hr hge
        right
        have hread : env.readData j 1 = none := hj 1
        simp [h1, h2, he, he2, devRead, hread, r1, r2, hj']

theorem readBytes_fault_inv (env : Env) (j : Nat) (hj : ReadFaultAt env j)
    (len : Nat) (st : DevState) (hr : st.reads ≤ j) :
    (readBytes env len st).2.reads ≤ j ∨
    ((readBytes env len st).2.reads = j + 1 ∧ (readBytes env len st).1 = -1) := by
  unfold readBytes
  by_cases h0 : len = 0
  · left
    simp [h0]
    omega
  · rw [if_neg h0]
    rcases h1 : readBytesLoop len st with ⟨e, st1⟩
    have r1 : st1.reads = st.reads := by
      have := readBytesLoop_reads len st
      rw [h1] at this
      exact this
    by_cases he : e ≠ 0
    · left
      simp [he]
      omega
    · rcases h2 : bufferByte SEND_IMMEDIATE st1 with ⟨e2, st2⟩
      have r2 : st2.reads = st1.reads := by
        have := bufferByte_reads SEND_IMMEDIATE st1
        rw [h2] at this
        exact this
      by_cases he2 : e2 ≠ 0
      · left
        simp [h2, he, he2]
        omega
      · rcases h3 : bufferFlush env st2 with ⟨e3, st3⟩
        have r3 : st3.reads = st2.reads := by
          have := bufferFlush_reads env st2
          rw [h3] at this
          exact this
        by_cases he3 : e3 ≠ 0
        · left
          simp [h2, h3, he, he2, he3]
          omega
        · rcases Nat.lt_or_ge st.reads j with hlt | hge
          · left
            cases hdr : env.readData st3.reads len with
            | none => simp [h2, h3, he, he2, he3, devRead, hdr]; omega
            | some bs =>
              by_cases hl : bs.length = len <;>
                simp [h2, h3, he, he2, he3, devRead, hdr, hl] <;> omega
          · have hj' : st.reads = j := le_antisymm hr hge
            right
            have hread : env.readData j len = none := hj len
            simp [h2, h3, he, he2, he3, devRead, hread, r1, r2, r3, hj']

theorem txWriteLoop_fault_inv (env : Env) (j : Nat) (hj : ReadFaultAt env j) :
    ∀ (bs : List Nat) (st : DevState), st.reads ≤ j →
    (txWriteLoop env bs st).2.reads ≤ j ∨
    ((txWriteLoop env bs st).2.reads = j + 1 ∧ (txWriteLoop env bs st).1 = -1) := by
  intro bs
  induction bs with
  | nil =>
    intro st hr
    left
    simpa [txWriteLoop] using hr
  | cons b rest ih =>
    intro st hr
    unfold txWriteLoop
    rcases h1 : writeByte env b st with ⟨a, st1⟩
    rcases writeByte_fault_inv env j hj b st hr with hL | hR
    · rw [h1] at hL
      by_cases ha : a < 0
      · left
        simpa [h1, ha] using hL
      · by_cases ha0 : a = 0
        · left
          simpa [h1, ha, ha0] using hL
        · have := ih st1 hL
          simpa [h1, ha, ha0] using this
    · rw [h1] at hR
      right
      have ha1 : a = -1 := hR.2
      have ha : a < 0 := by rw [ha1]; norm_num
      simp [h1, ha]
      exact hR.1

theorem transactionTail_fault_inv (env : Env) (j : Nat) (hj : ReadFaultAt env j)
    (addr7 : Nat) (rxLen : Int) (st : DevState) (hr : st.reads ≤ j) :
    (transactionTail env addr7 rxLen st).2.reads ≤ j ∨
    ((transactionTail env addr7 rxLen st).2.reads = j + 1 ∧
      (transactionTail env addr7 rxLen st).1 = -1) := by
  unfold transactionTail
  rcases h1 : writeByte env (addr7ToData addr7 true) st with ⟨a, s1⟩
  rcases writeByte_fault_inv env j hj (addr7ToData addr7 true) st hr with hL | hR
  · rw [h1] at hL
    by_cases ha : a < 0
    · left
      simpa [h1, ha] using hL
    · by_cases ha0 : a = 0
      · left
        simpa [h1, ha, ha0] using hL
      · by_cases hrx : rxLen = 0
        · left
          simpa [h1, ha, ha0, hrx] using hL
        · rcases h2 : readBytes env (rxLen.toNat % 65536) s1 with ⟨e, s2⟩
          rcases readBytes_fault_inv env j hj (rxLen.toNat % 65536) s1 hL with hL2 | hR2
          · rw [h2] at hL2
            left
            simpa [h1, h2, ha, ha0, hrx] using hL2
          · rw [h2] at hR2
            right
            have he1 : e = -1 := hR2.2
            have he : e ≠ 0 := by rw [he1]; norm_num
            simp [h1, h2, ha, ha0, hrx, he]
            exact hR2.1
  · rw [h1] at hR
    right
    have ha1 : a = -1 := hR.2
    have ha : a < 0 := by rw [ha1]; norm_num
    simp [h1, ha]
    exact hR.1

theorem transactionBody_fault_inv (env : Env) (j : Nat) (hj : ReadFaultAt env j)
    (addr7 : Nat) (txs : List Nat) (txLen rxLen : Int) (st : DevState) (hr : st.reads ≤ j) :
    (transactionBody env addr7 txs txLen rxLen st).2.reads ≤ j ∨
    ((transactionBody env addr7 txs txLen rxLen st).2.reads = j + 1 ∧
      (transactionBody env addr7 txs txLen rxLen st).1 = -1) := by
  unfold transactionBody
  by_cases htx : txLen > 0
  · rw [if_pos htx]
    rcases h1 : writeByte env (addr7ToData addr7 false) st with ⟨a, s1⟩
    rcases writeByte_fault_inv env j hj (addr7ToData addr7 false) st hr with hL | hR
    · rw [h1] at hL
      by_cases ha : a < 0
      · left
        simpa [h1, ha] using hL
      · by_cases ha0 : a = 0
        · left
          simpa [h1, ha, ha0] using hL
        · rcases h2 : txWriteLoop env (txs.take txLen.toNat) s1 with ⟨e, s2⟩
          rcases txWriteLoop_fault_inv env j hj (txs.take txLen.toNat) s1 hL with hL2 | hR2
          · rw [h2] at hL2
            by_cases he : e ≠ 0
            · left
              simpa [h1, h2, ha, ha0, he] using hL2
            · by_cases hrx : rxLen = 0
              · left
                simpa [h1, h2, ha, ha0, he, hrx] using hL2
              · have hres : ((i2cRestart env s2).2).reads ≤ j := by
                  rw [i2cRestart_reads]
                  exact hL2
                have := transactionTail_fault_inv env j hj addr7 rxLen
                  (i2cRestart env s2).2 hres
                simpa [h1, h2, ha, ha0, he, hrx] using this
          · rw [h2] at hR2
            right
            have he1 : e = -1 := hR2.2
            have he : e ≠ 0 := by rw [he1]; norm_num
            simp [h1, h2, ha, ha0, he]
            exact ⟨hR2.1, he1⟩
    · rw [h1] at hR
      right
      have ha1 : a = -1 := hR.2
      have ha : a < 0 := by rw [ha1]; norm_num
      simp [h1, ha]
      exact hR.1
  · rw [if_neg htx]
    exact transactionTail_fault_inv env j hj addr7 rxLen st hr

/-! Result-taxonomy lemmas: every path of every layer returns one of the
advertised codes. -/

theorem txWriteLoop_result (env : Env) :
    ∀ (bs : List Nat) (st : DevState),
    (txWriteLoop env bs st).1 = 0 ∨ (txWriteLoop env bs st).1 = -1 ∨
      (txWriteLoop env bs st).1 = -2 := by
  intro bs
  induction bs with
  | nil => intro st; left; rfl
  | cons b rest ih =>
    intro st
    unfold txWriteLoop
    rcases h1 : writeByte env b st with ⟨a, st1⟩
    by_cases ha : a < 0
    · right; left; simp [h1, ha]
    · by_cases ha0 : a = 0
      · right; right; simp [h1, ha, ha0]
      · simpa [h1, ha, ha0] using ih st1

theorem transactionTail_result (env : Env) (addr7 : Nat) (rxLen : Int) (st : DevState) :
    (transactionTail env addr7 rxLen st).1 = 0 ∨
    (transactionTail env addr7 rxLen st).1 = -1 ∨
    (transactionTail env addr7 rxLen st).1 = -2 := by
  unfold transactionTail
  rcases h1 : writeByte env (addr7ToData addr7 true) st with ⟨a, s1⟩
  by_cases ha : a < 0
  · right; left; simp [h1, ha]
  · by_cases ha0 : a = 0
    · right; right; simp [h1, ha, ha0]
    · by_cases hrx : rxLen = 0
      · left; simp [h1, ha, ha0, hrx]
      · rcases h2 : readBytes env (rxLen.toNat % 65536) s1 with ⟨e, s2⟩
        by_cases he : e ≠ 0
        · right; left; simp [h1, h2, ha, ha0, hrx, he]
        · left; simp [h1, h2, ha, ha0, hrx, he]

theorem transactionBody_result (env : Env) (addr7 : Nat) (txs : List Nat)
    (txLen rxLen : Int) (st : DevState) :
    (transactionBody env addr7 txs txLen rxLen st).1 = 0 ∨
    (transactionBody env addr7 txs txLen rxLen st).1 = -1 ∨
    (transactionBody env addr7 txs txLen rxLen st).1 = -2 := by
  unfold transactionBody
  by_cases htx : txLen > 0
  · rw [if_pos htx]
    rcases h1 : writeByte env (addr7ToData addr7 false) st with ⟨a, s1⟩
    by_cases ha : a < 0
    · right; left; simp [h1, ha]
    · by_cases ha0 : a = 0
      · right; right; simp [h1, ha, ha0]
      · rcases h2 : txWriteLoop env (txs.take txLen.toNat) s1 with ⟨e, s2⟩
        by_cases he : e ≠ 0
        · have := txWriteLoop_result env (txs.take txLen.toNat) s1
          rw [h2] at this
          rcases this with h | h | h
          · exact absurd h he
          · right; left; simpa [h1, h2, ha, ha0, he] using h
          · right; right; simpa [h1, h2, ha, ha0, he] using h
        · by_cases hrx : rxLen = 0
          · left; simp [h1, h2, ha, ha0, he, hrx]
          · have := transactionTail_result env addr7 rxLen (i2cRestart env s2).2
            simpa [h1, h2, ha, ha0, he, hrx] using this
  · rw [if_neg htx]
    exact transactionTail_result env addr7 rxLen st

/-- **C2, amended.** `Transaction`'s result is always one of success (0),
TransportError (-1), or NackError (-2); and an I/O fault in a read the run
actually reaches — an acknowledge-bit read inside `WriteByte` or the bulk
read inside `ReadBytes` — is reported as -1 (the run stops at that read).
The return values of `Start` and `Restart` (and of the scope-guarded `Stop`)
are, however, discarded, so a write fault in those steps alone is not
reported (see the counterexample theorem). -/
theorem transaction_result_spec (env : Env) (addr7 : Nat) (txs : List Nat)
    (txLen rxLen : Int) (st : DevState) (j : Nat) (hj : ReadFaultAt env j)
    (hr : st.reads ≤ j) :
    ((transaction env addr7 txs txLen rxLen st).1 = 0 ∨
     (transaction env addr7 txs txLen rxLen st).1 = -1 ∨
     (transaction env addr7 txs txLen rxLen st).1 = -2) ∧
    ((transaction env addr7 txs txLen rxLen st).2.reads ≤ j ∨
     ((transaction env addr7 txs txLen rxLen st).2.reads = j + 1 ∧
      (transaction env addr7 txs txLen rxLen st).1 = -1)) := by
  unfold transaction
  by_cases hneg : txLen < 0 ∨ rxLen < 0
  · rw [if_pos hneg]
    exact ⟨Or.inr (Or.inl rfl), Or.inl hr⟩
  · rw [if_neg hneg]
    rcases h1 : transactionBody env addr7 txs txLen rxLen (i2cStart env st).2 with ⟨r, st2⟩
    have hstart : ((i2cStart env st).2).reads ≤ j := by
      rw [i2cStart_reads]
      exact hr
    constructor
    · have := transactionBody_result env addr7 txs txLen rxLen (i2cStart env st).2
      rw [h1] at this
      simpa [h1] using this
    · have := transactionBody_fault_inv env j hj addr7 txs txLen rxLen
        (i2cStart env st).2 hstart
      rw [h1] at this
      rcases this with hL | hR
      · left
        simpa [h1, i2cStop_reads] using hL
      · right
        constructor
        · simpa [h1, i2cStop_reads] using hR.1
        · simpa [h1] using hR.2

/-- Witness for `transaction_result_spec`: a transport whose reads always
fail makes the very first acknowledge read (index 0) abort the transaction
with -1. -/
theorem transaction_result_spec_witness :
    (∀ len, (⟨fun _ p => (p.length : Int), fun _ _ => none⟩ : Env).readData 0 len = none) ∧
    (transaction ⟨fun _ p => (p.length : Int), fun _ _ => none⟩ 0x18 [] 0 0 initSt).1 = -1 ∧
    (transaction ⟨fun _ p => (p.length : Int), fun _ _ => none⟩ 0x18 [] 0 0 initSt).2.reads = 1 := by
  have h := transaction_result_spec ⟨fun _ p => (p.length : Int), fun _ _ => none⟩
    0x18 [] 0 0 initSt 0 (fun _ => rfl) (Nat.le_refl 0)
  refine ⟨fun _ => rfl, ?_, ?_⟩
  · rcases h.2 with hL | hR
    · exact absurd (by decide : (transaction ⟨fun _ p => (p.length : Int), fun _ _ => none⟩
        0x18 [] 0 0 initSt).2.reads = 1) (by omega)
    · exact hR.2
  · rcases h.2 with hL | hR
    · exact absurd (by decide : (transaction ⟨fun _ p => (p.length : Int), fun _ _ => none⟩
        0x18 [] 0 0 initSt).2.reads = 1) (by omega)
    · exact hR.1

/-- The environment whose very first wire write is rejected (accepts 0
bytes) while everything afterwards — writes and reads — succeeds, every
read delivering ACK bytes. -/
def startFailEnv : Env :=
  ⟨fun n p => if n = 0 then 0 else (p.length : Int),
   fun _ len => some (List.replicate len 0)⟩

/-- **C2, counterexample.** Under `startFailEnv` the initial `Start` fails
with -1 (its first pin write is rejected by the transport), yet
`Transaction` — which discards `Start`'s return value — completes and
returns success (0): an I/O fault at step 1 is not reported as
TransportError, contradicting the claim. -/
theorem transaction_start_fault_not_reported :
    (i2cStart startFailEnv initSt).1 = -1 ∧
    (transaction startFailEnv 0x18 [] 0 0 initSt).1 = 0 := by
  exact ⟨rfl, rfl⟩

/-! ## C1: NACK aborts with the stop sequence still issued -/

theorem transaction_eq (env : Env) (addr7 : Nat) (txs : List Nat) (txLen rxLen : Int)
    (st : DevState) (h : ¬(txLen < 0 ∨ rxLen < 0)) (r : Int) (st2 : DevState)
    (hbody : transactionBody env addr7 txs txLen rxLen (i2cStart env st).2 = (r, st2)) :
    transaction env addr7 txs txLen rxLen st = (r, (i2cStop env st2).2) := by
  unfold transaction
  rw [if_neg h, hbody]

theorem txWriteLoop_all_ack (env : Env) (hW : GoodWrites env) (acks : Nat → Nat)
    (hR : ∀ n, env.readData n 1 = some [acks n]) :
    ∀ (bs : List Nat) (st : DevState), st.buffer = [] →
    (∀ i, i < bs.length → acks (st.reads + i) &&& 1 = 0) →
    txWriteLoop env bs st =
      (0, { st with buffer := [], writes := st.writes + bs.length,
                    reads := st.reads + bs.length,
                    trace := st.trace ++ (bs.map writeByteEvs).flatten }) := by
  intro bs
  induction bs with
  | nil =>
    intro st hb _
    simp only [txWriteLoop, List.length_nil, Nat.add_zero, List.map_nil, List.flatten_nil,
      List.append_nil]
    rw [← hb]
  | cons b rest ih =>
    intro st hb hack
    unfold txWriteLoop
    rw [writeByte_ok env hW b st hb (acks st.reads) (hR st.reads)]
    have h0 : acks st.reads &&& 1 = 0 := by simpa using hack 0 (by simp)
    have hcond : ¬(acks st.reads &&& 1 ≠ 0) := by simp [h0]
    rw [if_neg hcond]
    dsimp only
    rw [if_neg (by norm_num : ¬((1 : Int) < 0)), if_neg (by norm_num : ¬((1 : Int) = 0))]
    have hack' : ∀ i, i < rest.length →
        acks (st.reads + 1 + i) &&& 1 = 0 := by
      intro i hi
      have := hack (i + 1) (by simpa using Nat.succ_lt_succ hi)
      rwa [show st.reads + 1 + i = st.reads + (i + 1) by omega]
    rw [ih _ rfl hack']
    simp only [Prod.mk.injEq, DevState.mk.injEq, true_and, List.length_cons]
    refine ⟨by omega, by omega, ?_⟩
    simp [List.map_cons, List.flatten_cons, List.append_assoc]

theorem txWriteLoop_first_nack (env : Env) (hW : GoodWrites env) (acks : Nat → Nat)
    (hR : ∀ n, env.readData n 1 = some [acks n]) :
    ∀ (bs : List Nat) (jn : Nat) (st : DevState), st.buffer = [] → jn < bs.length →
    acks (st.reads + jn) &&& 1 ≠ 0 →
    (∀ i, i < jn → acks (st.reads + i) &&& 1 = 0) →
    txWriteLoop env bs st =
      (-2, { st with buffer := [], writes := st.writes + jn + 1,
                     reads := st.reads + jn + 1,
                     trace := st.trace ++ ((bs.take (jn + 1)).map writeByteEvs).flatten }) := by
  intro bs
  induction bs with
  | nil =>
    intro jn st _ hjn
    exact absurd hjn (by simp)
  | cons b rest ih =>
    intro jn st hb hjn hnack hack
    unfold txWriteLoop
    rw [writeByte_ok env hW b st hb (acks st.reads) (hR st.reads)]
    cases jn with
    | zero =>
      have hnack0 : acks st.reads &&& 1 ≠ 0 := by simpa using hnack
      rw [if_pos hnack0]
      dsimp only
      rw [if_neg (by norm_num : ¬((0 : Int) < 0)), if_pos rfl]
      simp [List.take_succ_cons, List.take_zero, writeByteEvs]
    | succ jn' =>
      have h0 : acks st.reads &&& 1 = 0 := by simpa using hack 0 (Nat.succ_pos _)
      have hcond : ¬(acks st.reads &&& 1 ≠ 0) := by simp [h0]
      rw [if_neg hcond]
      dsimp only
      rw [if_neg (by norm_num : ¬((1 : Int) < 0)), if_neg (by norm_num : ¬((1 : Int) = 0))]
      have hnack' : acks (st.reads + 1 + jn') &&& 1 ≠ 0 := by
        rwa [show st.reads + 1 + jn' = st.reads + (jn' + 1) by omega]
      have hack' : ∀ i, i < jn' → acks (st.reads + 1 + i) &&& 1 = 0 := by
        intro i hi
        have := hack (i + 1) (Nat.succ_lt_succ hi)
        rwa [show st.reads + 1 + i = st.reads + (i + 1) by omega]
      rw [ih jn' _ rfl (by simpa using Nat.lt_of_succ_lt_succ hjn) hnack' hack']
      simp only [Prod.mk.injEq, DevState.mk.injEq, true_and, List.length_cons]
      refine ⟨by omega, by omega, ?_⟩
      simp [List.take_succ_cons, List.map_cons, List.flatten_cons, List.append_assoc]

/-- The sequence of bytes `Transaction` plans to put through `WriteByte`:
the write-direction address and the data bytes when `tx_len > 0`, then the
read-direction address except when a positive `tx_len` is paired with
`rx_len = 0`. -/
def plannedWrites (addr7 : Nat) (txs : List Nat) (rxLen : Int) : List Nat :=
  if txs.isEmpty then [addr7ToData addr7 true]
  else addr7ToData addr7 false ::
    (txs ++ if 0 < rxLen then [addr7ToData addr7 true] else [])

/-- **C1.** Under a transport whose writes all succeed and whose `n`-th
acknowledge read returns byte `acks n`, if the first NACK (low bit set)
occurs at position `k` of the planned address/data write sequence, then
`Transaction` returns NackError (-2) having performed exactly `k + 1`
`WriteByte` operations (so it aborted immediately at the first NACK, with no
bulk read), the issued command trace still ends with the `Stop` sequence,
and interpreting the whole trace from the idle bus state leaves SCL and SDA
both high. -/
theorem transaction_nack_spec (env : Env) (hW : GoodWrites env) (acks : Nat → Nat)
    (hR : ∀ n, env.readData n 1 = some [acks n]) (addr7 : Nat) (txs : List Nat)
    (rxLen : Int) (hrx : 0 ≤ rxLen) (k : Nat)
    (hk : k < (plannedWrites addr7 txs rxLen).length)
    (hnack : acks k &&& 1 ≠ 0) (hack : ∀ i, i < k → acks i &&& 1 = 0) :
    (transaction env addr7 txs (txs.length : Int) rxLen initSt).1 = -2 ∧
    (transaction env addr7 txs (txs.length : Int) rxLen initSt).2.reads = k + 1 ∧
    (∃ t, (transaction env addr7 txs (txs.length : Int) rxLen initSt).2.trace
      = t ++ stopEvs) ∧
    pinsOf ⟨3, 3⟩ (transaction env addr7 txs (txs.length : Int) rxLen initSt).2.trace
      = ⟨3, 3⟩ := by
  have hneg : ¬((txs.length : Int) < 0 ∨ rxLen < 0) := by
    push_neg
    exact ⟨by positivity, hrx⟩
  have hstart := i2cStart_ok env hW initSt rfl
  -- the state handed to the body
  set st1 : DevState :=
    { initSt with buffer := [], writes := initSt.writes + 2,
                  trace := initSt.trace ++ startEvs } with hst1
  have hst1' : (i2cStart env initSt).2 = st1 := by rw [hstart]
  have hst1buf : st1.buffer = [] := rfl
  have hst1reads : st1.reads = 0 := rfl
  -- compute the body result in each case; B is the state after the body
  suffices hbody : ∃ B : DevState, transactionBody env addr7 txs (txs.length : Int)
      rxLen st1 = (-2, B) ∧ B.buffer = [] ∧ B.reads = k + 1 by
    obtain ⟨B, hB, hBbuf, hBreads⟩ := hbody
    have htr := transaction_eq env addr7 txs (txs.length : Int) rxLen initSt hneg (-2) B
      (by rw [hst1']; exact hB)
    have hstop := i2cStop_ok env hW B hBbuf
    rw [htr, hstop]
    refine ⟨rfl, by simpa using hBreads, ⟨B.trace, rfl⟩, ?_⟩
    show pinsOf ⟨3, 3⟩ (B.trace ++ stopEvs) = ⟨3, 3⟩
    rw [pinsOf_append, pinsOf_stopEvs]
  rcases heq : txs with _ | ⟨t, ts⟩
  · -- tx_len = 0: the body goes straight to the read-address write
    subst heq
    have hk0 : k = 0 := by
      simpa [plannedWrites] using hk
    subst hk0
    have hnack0 : acks st1.reads &&& 1 ≠ 0 := by
      rw [hst1reads]
      exact hnack
    have hbodyEq : transactionBody env addr7 [] (([] : List Nat).length : Int) rxLen st1 =
        (-2, { st1 with buffer := [], writes := st1.writes + 1, reads := st1.reads + 1,
                        trace := st1.trace ++ writeByteEvs (addr7ToData addr7 true) }) := by
      unfold transactionBody
      rw [if_neg (by simp)]
      unfold transactionTail
      rw [writeByte_ok env hW _ st1 hst1buf (acks st1.reads) (hR st1.reads)]
      rw [if_pos hnack0]
      dsimp only
      rw [if_neg (by norm_num : ¬((0 : Int) < 0)), if_pos rfl]
    exact ⟨_, hbodyEq, rfl, by dsimp only [initSt]; try omega⟩
  · -- tx_len > 0
    subst heq
    have htpos : (0 : Int) < ((t :: ts).length : Int) := by
      exact_mod_cast Nat.succ_pos ts.length
    have htake : (((t :: ts).length : Int)).toNat = (t :: ts).length := by simp
    have hlen : (plannedWrites addr7 (t :: ts) rxLen).length =
        1 + (t :: ts).length + (if 0 < rxLen then 1 else 0) := by
      unfold plannedWrites
      rw [if_neg (by simp)]
      split_ifs <;> simp <;> omega
    rcases Nat.eq_zero_or_pos k with hk0 | hkpos
    · -- NACK already at the write-direction address byte
      subst hk0
      have hnack0 : acks st1.reads &&& 1 ≠ 0 := by
        rw [hst1reads]
        exact hnack
      have hbodyEq : transactionBody env addr7 (t :: ts) ((t :: ts).length : Int) rxLen st1 =
          (-2, { st1 with buffer := [], writes := st1.writes + 1, reads := st1.reads + 1,
                          trace := st1.trace ++ writeByteEvs (addr7ToData addr7 false) }) := by
        unfold transactionBody
        rw [if_pos htpos, htake, List.take_length]
        rw [writeByte_ok env hW _ st1 hst1buf (acks st1.reads) (hR st1.reads)]
        rw [if_pos hnack0]
        dsimp only
        rw [if_neg (by norm_num : ¬((0 : Int) < 0)), if_pos rfl]
      exact ⟨_, hbodyEq, rfl, by dsimp only [initSt]; try omega⟩
    · -- the address byte is ACKed
      obtain ⟨j, rfl⟩ : ∃ j, k = j + 1 := ⟨k - 1, by omega⟩
      have h0 : acks st1.reads &&& 1 = 0 := by
        rw [hst1reads]
        exact hack 0 (by omega)
      set s1 : DevState :=
        { st1 with buffer := [], writes := st1.writes + 1, reads := st1.reads + 1,
                   trace := st1.trace ++ writeByteEvs (addr7ToData addr7 false) } with hs1
      have hs1buf : s1.buffer = [] := by rw [hs1]
      have hs1reads : s1.reads = 1 := by
        rw [hs1]
        dsimp only [initSt]
      rcases Nat.lt_or_ge j (t :: ts).length with hjlt | hjge
      · -- first NACK within the tx write phase
        have hnack' : acks (s1.reads + j) &&& 1 ≠ 0 := by
          rw [hs1reads, Nat.add_comm]
          exact hnack
        have hack' : ∀ i, i < j → acks (s1.reads + i) &&& 1 = 0 := by
          intro i hi
          rw [hs1reads, Nat.add_comm]
          exact hack (i + 1) (by omega)
        have hbodyEq : transactionBody env addr7 (t :: ts) ((t :: ts).length : Int) rxLen st1 =
            (-2, { s1 with buffer := [], writes := s1.writes + j + 1,
                           reads := s1.reads + j + 1,
                           trace := s1.trace ++
                             (((t :: ts).take (j + 1)).map writeByteEvs).flatten }) := by
          unfold transactionBody
          rw [if_pos htpos, htake, List.take_length]
          rw [writeByte_ok env hW _ st1 hst1buf (acks st1.reads) (hR st1.reads)]
          rw [← hs1]
          rw [if_neg (by simp [h0])]
          dsimp only
          rw [if_neg (by norm_num : ¬((1 : Int) < 0)), if_neg (by norm_num : ¬((1 : Int) = 0))]
          rw [txWriteLoop_first_nack env hW acks hR (t :: ts) j s1 hs1buf hjlt hnack' hack']
          rw [if_pos (by norm_num : ((-2 : Int) ≠ 0))]
        exact ⟨_, hbodyEq, rfl, by dsimp only [initSt]; try omega⟩
      · -- all tx bytes ACKed: the NACK is at the read-direction address byte
        have hjeq : j = (t :: ts).length := by
          rw [hlen] at hk
          split_ifs at hk <;> omega
        have hrxpos : 0 < rxLen := by
          rw [hlen] at hk
          split_ifs at hk with h
          · exact h
          · omega
        have hack' : ∀ i, i < (t :: ts).length → acks (s1.reads + i) &&& 1 = 0 := by
          intro i hi
          rw [hs1reads, Nat.add_comm]
          exact hack (i + 1) (by omega)
        set s2 : DevState :=
          { s1 with buffer := [], writes := s1.writes + (t :: ts).length,
                    reads := s1.reads + (t :: ts).length,
                    trace := s1.trace ++ ((t :: ts).map writeByteEvs).flatten } with hs2
        have hs2buf : s2.buffer = [] := by rw [hs2]
        set s3 : DevState :=
          { s2 with buffer := [], writes := s2.writes + 4,
                    trace := s2.trace ++ restartEvs } with hs3
        have hs3buf : s3.buffer = [] := by rw [hs3]
        have hs3reads : s3.reads = j + 1 := by
          have h32 : s3.reads = s2.reads := by rw [hs3]
          have h21 : s2.reads = s1.reads + (t :: ts).length := by rw [hs2]
          rw [h32, h21, hs1reads, hjeq]
          omega
        have hnack3 : acks s3.reads &&& 1 ≠ 0 := by
          rw [hs3reads]
          exact hnack
        have hbodyEq : transactionBody env addr7 (t :: ts) ((t :: ts).length : Int) rxLen st1 =
            (-2, { s3 with buffer := [], writes := s3.writes + 1, reads := s3.reads + 1,
                           trace := s3.trace ++ writeByteEvs (addr7ToData addr7 true) }) := by
          unfold transactionBody
          rw [if_pos htpos, htake, List.take_length]
          rw [writeByte_ok env hW _ st1 hst1buf (acks st1.reads) (hR st1.reads)]
          rw [← hs1]
          rw [if_neg (by simp [h0])]
          dsimp only
          rw [if_neg (by norm_num : ¬((1 : Int) < 0)), if_neg (by norm_num : ¬((1 : Int) = 0))]
          rw [txWriteLoop_all_ack env hW acks hR (t :: ts) s1 hs1buf hack']
          rw [← hs2]
          rw [if_neg (by norm_num : ¬((0 : Int) ≠ 0)), if_neg (by omega : ¬(rxLen = 0))]
          rw [i2cRestart_ok env hW s2 hs2buf]
          rw [← hs3]
          unfold transactionTail
          rw [writeByte_ok env hW _ s3 hs3buf (acks s3.reads) (hR s3.reads)]
          rw [if_pos hnack3]
          dsimp only
          rw [if_neg (by norm_num : ¬((0 : Int) < 0)), if_pos rfl]
        exact ⟨_, hbodyEq, rfl, by dsimp only [initSt]; try omega⟩

/-- Witness for `transaction_nack_spec`: the very first acknowledge (of the
write-direction address byte) is a NACK, and the transaction returns -2 with
one acknowledge read and a trace ending in the stop sequence. -/
theorem transaction_nack_spec_witness :
    (transaction ⟨fun _ p => (p.length : Int), fun _ _ => some [1]⟩
      0x18 [0x42] 1 0 initSt).1 = -2 ∧
    (transaction ⟨fun _ p => (p.length : Int), fun _ _ => some [1]⟩
      0x18 [0x42] 1 0 initSt).2.reads = 1 := by
  have h := transaction_nack_spec ⟨fun _ p => (p.length : Int), fun _ _ => some [1]⟩
    (fun _ _ => rfl) (fun _ => 1) (fun _ => rfl) 0x18 [0x42] 0 (by norm_num) 0
    (by simp [plannedWrites]) (by norm_num) (by omega)
  exact ⟨h.1, h.2.1⟩

/-! ## C9: `MpsseWs2812b::ExpandByte` -/

/-- Modelled from the spec: the implementation of `MpsseWs2812b::ExpandByte`
is not among the sources (only its declaration in `mpsse_protocol.h` is).
Per the spec, each of the 8 bits of the input byte, most-significant bit
first, expands to the 3-bit pulse pattern `110` for a 1 bit and `100` for a
0 bit, producing 24 output bits (the C++ code packs them into the 3-byte
`buf`; the model produces the bit sequence).  `expandBits n b` expands bits
`n-1` down to `0`. -/
def expandBits : Nat → Nat → List Nat
  | 0, _ => []
  | n + 1, b => (if b.testBit n then [1, 1, 0] else [1, 0, 0]) ++ expandBits n b

def expandByte (b : Nat) : List Nat := expandBits 8 b

theorem expandBits_length (b : Nat) : ∀ n, (expandBits n b).length = 3 * n := by
  intro n
  induction n with
  | zero => rfl
  | succ n ih =>
    unfold expandBits
    rw [List.length_append, ih]
    split_ifs <;> simp <;> ring

theorem expandBits_slice (b : Nat) : ∀ n i, i < n →
    ((expandBits n b).drop (3 * i)).take 3 =
      (if b.testBit (n - 1 - i) then [1, 1, 0] else [1, 0, 0]) := by
  intro n
  induction n with
  | zero => intro i hi; exact absurd hi (Nat.not_lt_zero i)
  | succ n ih =>
    intro i hi
    cases i with
    | zero =>
      unfold expandBits
      cases h : b.testBit n <;> simp [h]
    | succ i =>
      have hlen : (if b.testBit n then [1, 1, 0] else [1, 0, 0]).length = 3 := by
        split_ifs <;> rfl
      have hdrop : (expandBits (n + 1) b).drop (3 * (i + 1)) =
          (expandBits n b).drop (3 * i) := by
        conv_lhs => rw [show expandBits (n + 1) b =
          (if b.testBit n then [1, 1, 0] else [1, 0, 0]) ++ expandBits n b from rfl]
        rw [show 3 * (i + 1) = (if b.testBit n then [1, 1, 0] else [1, 0, 0]).length
            + 3 * i by rw [hlen]; ring]
        exact List.drop_append (3 * i)
      rw [hdrop, ih i (Nat.lt_of_succ_lt_succ hi)]
      have : n + 1 - 1 - (i + 1) = n - 1 - i := by omega
      rw [this]

/-- **C9** (modelled from the spec; the `ExpandByte` implementation is not
under the provided sources).  `expandByte` produces exactly 24 bits, the
`i`-th 3-bit group (MSB first) being `110` when bit `7-i` of the input is 1
and `100` when it is 0; in particular `0x00` expands to eight repetitions of
`100` and `0xFF` to eight repetitions of `110`. -/
theorem expandByte_spec (b : Nat) :
    (expandByte b).length = 24 ∧
    (∀ i, i < 8 → ((expandByte b).drop (3 * i)).take 3 =
      (if b.testBit (7 - i) then [1, 1, 0] else [1, 0, 0])) ∧
    expandByte 0x00 = [1, 0, 0, 1, 0, 0, 1, 0, 0, 1, 0, 0, 1, 0, 0, 1, 0, 0, 1, 0, 0, 1, 0, 0] ∧
    expandByte 0xff = [1, 1, 0, 1, 1, 0, 1, 1, 0, 1, 1, 0, 1, 1, 0, 1, 1, 0, 1, 1, 0, 1, 1, 0] := by
  refine ⟨expandBits_length b 8, ?_, by decide, by decide⟩
  intro i hi
  exact expandBits_slice b 8 i hi

/-- Witness for `expandByte_spec` at `0xA5`, whose top bit is 1, so the
first 3-bit group is `110`. -/
theorem expandByte_spec_witness :
    (0 : Nat) < 8 ∧
    ((expandByte 0xa5).drop (3 * 0)).take 3 =
      (if (0xa5 : Nat).testBit (7 - 0) then [1, 1, 0] else [1, 0, 0]) := by
  exact ⟨by norm_num, (expandByte_spec 0xa5).2.1 0 (by norm_num)⟩

end Mpsse
